import Mathlib

/-!
Verification of the UAH paging simulator (sim_pag_fifo.c, sim_pag_random.c,
sim_pag_fifo2ch.c, sim_pag_lru.c).

The four C files share the data model (`ssystem`, page table `pgt`, frame
table `frt`, circular free/occupied lists threaded through `frt[..].next`)
and share `sim_mmu`, `handle_page_fault` and `replace_page` verbatim; they
differ in `init_tables` (only in the `lru`/`clock` resets), in
`reference_page`, in `choose_page_to_be_replaced` and in
`occupy_free_frame`.  The page/frame tables are embedded as total functions
`Nat → _`; C `int` fields that can hold the sentinel `-1` (`listfree`,
`listoccupied`, `frt[..].page`) are embedded as `Int`, and indexing with
them mirrors the C array access via `Int.toNat`.  The `unsigned` return
value of `sim_mmu` is reduced modulo `2 ^ 32`.
-/

/-- One entry of the page table `spage` (fields used by the four variants:
`present`, `frame`, `modified`, `referenced`, `timestamp`). -/
structure SPage where
  present : Bool
  frame : Nat
  modified : Bool
  referenced : Bool
  timestamp : Nat
deriving DecidableEq

/-- One entry of the frame table `sframe`: the resident page (`-1` when
free) and the `next` pointer of the circular list the frame is on. -/
structure SFrame where
  page : Int
  next : Nat
deriving DecidableEq

/-- The simulator state `ssystem`.  Tables are total functions; out-of-range
C accesses would be undefined behaviour, here they read an arbitrary cell. -/
structure SSystem where
  numpags : Nat
  numframes : Nat
  pagsz : Nat
  pgt : Nat → SPage
  frt : Nat → SFrame
  listfree : Int
  listoccupied : Int
  lru : Int
  clock : Nat
  detailed : Bool
  numrefsread : Nat
  numrefswrite : Nat
  numpagefaults : Nat
  numillegalrefs : Nat
  numpgwriteback : Nat

/-- Point update of the page table: `S->pgt[p] = g (S->pgt[p])`. -/
def updPg (S : SSystem) (p : Nat) (g : SPage → SPage) : SSystem :=
  { S with pgt := fun q => if q = p then g (S.pgt p) else S.pgt q }

/-- Point update of the frame table: `S->frt[f] = g (S->frt[f])`. -/
def updFr (S : SSystem) (f : Nat) (g : SFrame → SFrame) : SSystem :=
  { S with frt := fun q => if q = f then g (S.frt f) else S.frt q }

/-- The all-zero page entry produced by the `memset` in `init_tables`. -/
def zeroPage : SPage :=
  { present := false, frame := 0, modified := false, referenced := false, timestamp := 0 }

/-- Net effect on `frt` of the initialisation loop of `init_tables`
(`for i < numframes-1: page=-1, next=i+1`, then `frt[numframes-1] :=
⟨-1, 0⟩`; for `numframes = 0` the C code writes `frt[0] := ⟨-1, 0⟩`,
matching the `Nat` subtraction here). -/
def initFrt (S : SSystem) : Nat → SFrame :=
  fun f =>
    if f < S.numframes - 1 then { page := -1, next := f + 1 }
    else if f = S.numframes - 1 then { page := -1, next := 0 }
    else S.frt f

/-- `init_tables` as in sim_pag_fifo.c / sim_pag_random.c / sim_pag_lru.c:
zero the first `numpags` page entries, reset `lru` and `clock`, build the
circular free list over all frames and empty the occupied list. -/
def init_tables (S : SSystem) : SSystem :=
  { S with
    pgt := fun p => if p < S.numpags then zeroPage else S.pgt p
    lru := -1
    clock := 0
    frt := initFrt S
    listfree := ((S.numframes - 1 : Nat) : Int)
    listoccupied := -1 }

/-- `replace_page`, textually identical in all four variants: count a
write-back when the victim is modified, evict the victim, install the new
page in the victim's frame. -/
def replace_page (S : SSystem) (victim : Int) (newpage : Nat) : SSystem :=
  let frame := (S.pgt victim.toNat).frame
  let S1 := if (S.pgt victim.toNat).modified then
      { S with numpgwriteback := S.numpgwriteback + 1 }
    else S
  let S2 := updPg S1 victim.toNat (fun pg => { pg with present := false })
  let S3 := updPg S2 newpage
    (fun pg => { pg with present := true, frame := frame, modified := false })
  updFr S3 frame (fun fr => { fr with page := (newpage : Int) })

/-- `handle_page_fault`, textually identical in all four variants, with the
policy hooks as parameters.  If the free list is non-empty, detach the frame
after the tail and `occupy` it; otherwise `choose` a victim (possibly
mutating the state, as the FIFO and second-chance variants do) and
`replace`. -/
def handle_page_fault_gen (choose : SSystem → Int × SSystem)
    (occupy : SSystem → Nat → Nat → SSystem)
    (S : SSystem) (virtual_addr : Nat) : SSystem :=
  let S0 := { S with numpagefaults := S.numpagefaults + 1 }
  let page := virtual_addr / S0.pagsz
  if S0.listfree ≠ -1 then
    let last := S0.listfree.toNat
    let frame := (S0.frt last).next
    let S1 :=
      if frame = last then { S0 with listfree := -1 }
      else updFr S0 last (fun fr => { fr with next := (S0.frt frame).next })
    occupy S1 frame page
  else
    let vs := choose S0
    replace_page vs.2 vs.1 page

/-- `sim_mmu`, textually identical in all four variants, with the fault
handler and `reference_page` as parameters.  Returns the new state and the
physical address (an `unsigned`, reduced mod `2 ^ 32`); out-of-range pages
count an illegal reference and return `~0U`. -/
def sim_mmu_gen (handle : SSystem → Nat → SSystem)
    (ref : SSystem → Nat → Char → SSystem)
    (S : SSystem) (virtual_addr : Nat) (op : Char) : SSystem × Nat :=
  let page := virtual_addr / S.pagsz
  let offset := virtual_addr % S.pagsz
  if S.numpags ≤ page then
    ({ S with numillegalrefs := S.numillegalrefs + 1 }, 2 ^ 32 - 1)
  else
    let S1 := if (S.pgt page).present then S else handle S virtual_addr
    let frame := (S1.pgt page).frame
    let physical_addr := (frame * S1.pagsz + offset) % 2 ^ 32
    let S2 := ref S1 page op
    (S2, physical_addr)

/-- `reference_page` of sim_pag_fifo.c and sim_pag_random.c: count reads,
or mark modified and count writes. -/
def reference_page_rw (S : SSystem) (page : Nat) (op : Char) : SSystem :=
  if op = 'R' then { S with numrefsread := S.numrefsread + 1 }
  else if op = 'W' then
    let S1 := updPg S page (fun pg => { pg with modified := true })
    { S1 with numrefswrite := S1.numrefswrite + 1 }
  else S

namespace Fifo

/-- FIFO `choose_page_to_be_replaced`: the victim frame is the one after the
occupied-list tail; the tail pointer advances to it. -/
def choose_page_to_be_replaced (S : SSystem) : Int × SSystem :=
  let frame := (S.frt S.listoccupied.toNat).next
  let victim := (S.frt frame).page
  (victim, { S with listoccupied := (frame : Int) })

/-- FIFO `occupy_free_frame`: link `frame` after the occupied-list tail
(or as the sole element), make it the new tail, install `page`. -/
def occupy_free_frame (S : SSystem) (frame : Nat) (page : Nat) : SSystem :=
  let S1 :=
    if S.listoccupied = -1 then
      updFr S frame (fun fr => { fr with next := frame })
    else
      let Sa := updFr S frame
        (fun fr => { fr with next := (S.frt S.listoccupied.toNat).next })
      updFr Sa S.listoccupied.toNat (fun fr => { fr with next := frame })
  let S2 := { S1 with listoccupied := (frame : Int) }
  let S3 := updPg S2 page
    (fun pg => { pg with present := true, frame := frame, modified := false })
  updFr S3 frame (fun fr => { fr with page := (page : Int) })

/-- FIFO `handle_page_fault` (shared body). -/
def handle_page_fault : SSystem → Nat → SSystem :=
  handle_page_fault_gen choose_page_to_be_replaced occupy_free_frame

/-- FIFO `sim_mmu` (shared body). -/
def sim_mmu (S : SSystem) (virtual_addr : Nat) (op : Char) : SSystem × Nat :=
  sim_mmu_gen handle_page_fault reference_page_rw S virtual_addr op

/-- Run a reference trace (list of address/op pairs) through the FIFO
simulator, keeping the final state. -/
def run (S : SSystem) (trace : List (Nat × Char)) : SSystem :=
  trace.foldl (fun S a => (sim_mmu S a.1 a.2).1) S

end Fifo

namespace Rnd

/-- Random `choose_page_to_be_replaced`; `myrandom(0, numframes)` is
modelled by the oracle `r` reduced into `[0, numframes)`.  The state is not
mutated. -/
def choose_page_to_be_replaced (r : Nat) (S : SSystem) : Int × SSystem :=
  let frame := r % S.numframes
  let victim := (S.frt frame).page
  (victim, S)

/-- Random `occupy_free_frame` (sim_pag_random.c:176-185): installs the page
in the page/frame tables but does not link the frame into the occupied
list. -/
def occupy_free_frame (S : SSystem) (frame : Nat) (page : Nat) : SSystem :=
  let S1 := updPg S page
    (fun pg => { pg with present := true, frame := frame, modified := false })
  updFr S1 frame (fun fr => { fr with page := (page : Int) })

/-- Random `handle_page_fault` (shared body), with the random oracle `r`. -/
def handle_page_fault (r : Nat) : SSystem → Nat → SSystem :=
  handle_page_fault_gen (choose_page_to_be_replaced r) occupy_free_frame

/-- Random `sim_mmu` (shared body), with the random oracle `r`. -/
def sim_mmu (r : Nat) (S : SSystem) (virtual_addr : Nat) (op : Char) :
    SSystem × Nat :=
  sim_mmu_gen (handle_page_fault r) reference_page_rw S virtual_addr op

end Rnd

namespace Sc

/-- Second-chance `init_tables` (sim_pag_fifo2ch.c): as the shared one but
without the `lru`/`clock` resets. -/
def init_tables (S : SSystem) : SSystem :=
  { S with
    pgt := fun p => if p < S.numpags then zeroPage else S.pgt p
    frt := initFrt S
    listfree := ((S.numframes - 1 : Nat) : Int)
    listoccupied := -1 }

/-- Second-chance `reference_page`: as the read/write one, and additionally
always set the referenced bit. -/
def reference_page (S : SSystem) (page : Nat) (op : Char) : SSystem :=
  let S1 := reference_page_rw S page op
  updPg S1 page (fun pg => { pg with referenced := true })

/-- One unrolling per fuel unit of the `while (1)` walk of second-chance
`choose_page_to_be_replaced`: pardon referenced pages (clearing their bit
and advancing the tail), stop at the first unreferenced one. -/
def choose_aux : Nat → SSystem → Option (Int × SSystem)
  | 0, _ => none
  | fuel + 1, S =>
    let frame := (S.frt S.listoccupied.toNat).next
    let page := (S.frt frame).page
    if (S.pgt page.toNat).referenced then
      choose_aux fuel
        { updPg S page.toNat (fun pg => { pg with referenced := false }) with
          listoccupied := (frame : Int) }
    else
      some (page, S)

/-- Second-chance `choose_page_to_be_replaced`.  The C loop has no bound;
fuel `numframes + 1` suffices whenever the occupied ring covers the frames
(proved below as the termination theorem), and the default branch is then
dead code. -/
def choose_page_to_be_replaced (S : SSystem) : Int × SSystem :=
  (choose_aux (S.numframes + 1) S).getD (-1, S)

/-- Second-chance `occupy_free_frame`: as the FIFO one, and additionally set
the referenced bit of the installed page. -/
def occupy_free_frame (S : SSystem) (frame : Nat) (page : Nat) : SSystem :=
  let S1 :=
    if S.listoccupied = -1 then
      updFr S frame (fun fr => { fr with next := frame })
    else
      let Sa := updFr S frame
        (fun fr => { fr with next := (S.frt S.listoccupied.toNat).next })
      updFr Sa S.listoccupied.toNat (fun fr => { fr with next := frame })
  let S2 := { S1 with listoccupied := (frame : Int) }
  let S3 := updPg S2 page
    (fun pg =>
      { pg with present := true, frame := frame, modified := false,
                referenced := true })
  updFr S3 frame (fun fr => { fr with page := (page : Int) })

/-- Second-chance `handle_page_fault` (shared body). -/
def handle_page_fault : SSystem → Nat → SSystem :=
  handle_page_fault_gen choose_page_to_be_replaced occupy_free_frame

/-- Second-chance `sim_mmu` (shared body). -/
def sim_mmu (S : SSystem) (virtual_addr : Nat) (op : Char) : SSystem × Nat :=
  sim_mmu_gen handle_page_fault reference_page S virtual_addr op

/-- Run a reference trace through the second-chance simulator. -/
def run (S : SSystem) (trace : List (Nat × Char)) : SSystem :=
  trace.foldl (fun S a => (sim_mmu S a.1 a.2).1) S

end Sc

namespace Lru

/-- LRU `reference_page`: as the read/write one, then stamp the page with
the current clock and tick the clock (the C overflow check only prints). -/
def reference_page (S : SSystem) (page : Nat) (op : Char) : SSystem :=
  let S1 := reference_page_rw S page op
  let S2 := updPg S1 page (fun pg => { pg with timestamp := S1.clock })
  { S2 with clock := S2.clock + 1 }

/-- LRU `choose_page_to_be_replaced`: scan all frames keeping the first
frame whose resident page has the strictly smallest timestamp (the `frame
== -1` test fires only at `i = 0`). -/
def choose_page_to_be_replaced (S : SSystem) : Int × SSystem :=
  let frame := (List.range S.numframes).foldl
    (fun (frame : Int) (i : Nat) =>
      let frame1 := if frame = (-1 : Int) then (i : Int) else frame
      if (S.pgt ((S.frt i).page.toNat)).timestamp <
          (S.pgt ((S.frt frame1.toNat).page.toNat)).timestamp then (i : Int)
      else frame1)
    (-1)
  ((S.frt frame.toNat).page, S)

/-- LRU `occupy_free_frame` (sim_pag_lru.c:385-393): installs the page
(without touching `modified`) and does not link the frame into the occupied
list. -/
def occupy_free_frame (S : SSystem) (frame : Nat) (page : Nat) : SSystem :=
  let S1 := updPg S page (fun pg => { pg with frame := frame })
  let S2 := updFr S1 frame (fun fr => { fr with page := (page : Int) })
  updPg S2 page (fun pg => { pg with present := true, referenced := true })

/-- LRU `handle_page_fault` (shared body). -/
def handle_page_fault : SSystem → Nat → SSystem :=
  handle_page_fault_gen choose_page_to_be_replaced occupy_free_frame

/-- LRU `sim_mmu` (shared body). -/
def sim_mmu (S : SSystem) (virtual_addr : Nat) (op : Char) : SSystem × Nat :=
  sim_mmu_gen handle_page_fault reference_page S virtual_addr op

/-- Run a reference trace through the LRU simulator. -/
def run (S : SSystem) (trace : List (Nat × Char)) : SSystem :=
  trace.foldl (fun S a => (sim_mmu S a.1 a.2).1) S

end Lru

/-- A concrete pre-`init_tables` system with the given sizes, used to build
explicit states for witnesses and counterexamples. -/
def baseSys (np nf psz : Nat) : SSystem :=
  { numpags := np, numframes := nf, pagsz := psz,
    pgt := fun _ => zeroPage, frt := fun _ => { page := 0, next := 0 },
    listfree := 0, listoccupied := 0, lru := 0, clock := 0, detailed := false,
    numrefsread := 0, numrefswrite := 0, numpagefaults := 0,
    numillegalrefs := 0, numpgwriteback := 0 }

/-- The frames of one circular list, listed starting at the frame the tail
pointer holds: `tail = l[0]` and `frt[l[i]].next = l[(i+1) mod |l|]`; the
empty list stands for a `-1` tail pointer. -/
def isRing (frt : Nat → SFrame) (tail : Int) (l : List Nat) : Prop :=
  (l = [] → tail = -1) ∧
  (l ≠ [] → tail = (l.getD 0 0 : Int)) ∧
  ∀ i, i < l.length → (frt (l.getD i 0)).next = l.getD ((i + 1) % l.length) 0

instance (frt : Nat → SFrame) (tail : Int) (l : List Nat) :
    Decidable (isRing frt tail l) := by
  unfold isRing; infer_instance

/-- The free ring and the occupied ring are disjoint and together cover
exactly the frames `0, …, numframes-1` (disjointness and coverage are both
packaged in the permutation with `List.range`). -/
def RingPartition (S : SSystem) : Prop :=
  ∃ fl ol : List Nat,
    isRing S.frt S.listfree fl ∧ isRing S.frt S.listoccupied ol ∧
    (fl ++ ol).Perm (List.range S.numframes)

/-- Number of frames whose resident page currently has the referenced bit
set: the termination measure of the second-chance walk. -/
def refCount (S : SSystem) : Nat :=
  ((Finset.range S.numframes).filter
    (fun f => (S.pgt ((S.frt f).page.toNat)).referenced = true)).card

/-- An (unreachable) state whose page 0 has the modified bit set while not
present: initialised one-page one-frame system with the bit forced on. -/
def modifiedStuck : SSystem :=
  updPg (init_tables (baseSys 1 1 1)) 0 (fun pg => { pg with modified := true })

/-- A concrete LRU state after three distinct accesses (three frames
resident with timestamps 0, 1, 2). -/
def lruProbe : SSystem :=
  Lru.run (init_tables (baseSys 4 3 1)) [(0, 'R'), (1, 'R'), (2, 'R')]

/-- A concrete second-chance state with both frames occupied (occupied ring
`[1, 0]`, free ring empty). -/
def scProbe : SSystem :=
  Sc.run (Sc.init_tables (baseSys 3 2 1)) [(0, 'R'), (1, 'R')]

/-- A concrete one-frame FIFO state after one access (free ring empty,
occupied ring `[0]`). -/
def fifoProbe : SSystem :=
  Fifo.run (init_tables (baseSys 2 1 1)) [(0, 'R')]

/-- The random-variant state after one access on a one-frame system: the
only frame has been detached from the free ring but was never linked into
the occupied ring. -/
def cexRandom : SSystem :=
  (Rnd.sim_mmu 0 (init_tables (baseSys 1 1 1)) 0 'R').1

/-! ## Basic projection lemmas -/

@[simp] lemma updPg_pgt (S : SSystem) (p : Nat) (g : SPage → SPage) (q : Nat) :
    (updPg S p g).pgt q = if q = p then g (S.pgt p) else S.pgt q := rfl

@[simp] lemma updPg_frt (S : SSystem) (p : Nat) (g : SPage → SPage) :
    (updPg S p g).frt = S.frt := rfl

@[simp] lemma updPg_listfree (S : SSystem) (p : Nat) (g : SPage → SPage) :
    (updPg S p g).listfree = S.listfree := rfl

@[simp] lemma updPg_listoccupied (S : SSystem) (p : Nat) (g : SPage → SPage) :
    (updPg S p g).listoccupied = S.listoccupied := rfl

@[simp] lemma updPg_numframes (S : SSystem) (p : Nat) (g : SPage → SPage) :
    (updPg S p g).numframes = S.numframes := rfl

@[simp] lemma updPg_numpags (S : SSystem) (p : Nat) (g : SPage → SPage) :
    (updPg S p g).numpags = S.numpags := rfl

@[simp] lemma updPg_pagsz (S : SSystem) (p : Nat) (g : SPage → SPage) :
    (updPg S p g).pagsz = S.pagsz := rfl

@[simp] lemma updPg_numpgwriteback (S : SSystem) (p : Nat) (g : SPage → SPage) :
    (updPg S p g).numpgwriteback = S.numpgwriteback := rfl

@[simp] lemma updFr_frt (S : SSystem) (f : Nat) (g : SFrame → SFrame) (q : Nat) :
    (updFr S f g).frt q = if q = f then g (S.frt f) else S.frt q := rfl

@[simp] lemma updFr_pgt (S : SSystem) (f : Nat) (g : SFrame → SFrame) :
    (updFr S f g).pgt = S.pgt := rfl

@[simp] lemma updFr_listfree (S : SSystem) (f : Nat) (g : SFrame → SFrame) :
    (updFr S f g).listfree = S.listfree := rfl

@[simp] lemma updFr_listoccupied (S : SSystem) (f : Nat) (g : SFrame → SFrame) :
    (updFr S f g).listoccupied = S.listoccupied := rfl

@[simp] lemma updFr_numframes (S : SSystem) (f : Nat) (g : SFrame → SFrame) :
    (updFr S f g).numframes = S.numframes := rfl

@[simp] lemma updFr_numpags (S : SSystem) (f : Nat) (g : SFrame → SFrame) :
    (updFr S f g).numpags = S.numpags := rfl

@[simp] lemma updFr_pagsz (S : SSystem) (f : Nat) (g : SFrame → SFrame) :
    (updFr S f g).pagsz = S.pagsz := rfl

@[simp] lemma updFr_numpgwriteback (S : SSystem) (f : Nat) (g : SFrame → SFrame) :
    (updFr S f g).numpgwriteback = S.numpgwriteback := rfl

/-! ## C8: illegal references -/

lemma sim_mmu_gen_illegal (handle : SSystem → Nat → SSystem)
    (ref : SSystem → Nat → Char → SSystem) (S : SSystem) (va : Nat) (op : Char)
    (h : S.numpags ≤ va / S.pagsz) :
    sim_mmu_gen handle ref S va op =
      ({ S with numillegalrefs := S.numillegalrefs + 1 }, 2 ^ 32 - 1) := by
  unfold sim_mmu_gen
  simp [h]

/-- C8: whenever the page number `virtual_addr / pagsz` is at least
`numpags`, `sim_mmu` (in each of the four policy variants) increments
`numillegalrefs`, returns the all-bits-set sentinel `2^32 - 1`, does not
invoke the fault handler and leaves every other component of the state
unchanged (the result state is exactly the input with the counter bumped). -/
theorem illegal_reference_law (S : SSystem) (va : Nat) (op : Char) (r : Nat)
    (h : S.numpags ≤ va / S.pagsz) :
    Fifo.sim_mmu S va op =
      ({ S with numillegalrefs := S.numillegalrefs + 1 }, 2 ^ 32 - 1) ∧
    Rnd.sim_mmu r S va op =
      ({ S with numillegalrefs := S.numillegalrefs + 1 }, 2 ^ 32 - 1) ∧
    Sc.sim_mmu S va op =
      ({ S with numillegalrefs := S.numillegalrefs + 1 }, 2 ^ 32 - 1) ∧
    Lru.sim_mmu S va op =
      ({ S with numillegalrefs := S.numillegalrefs + 1 }, 2 ^ 32 - 1) :=
  ⟨sim_mmu_gen_illegal _ _ _ _ _ h, sim_mmu_gen_illegal _ _ _ _ _ h,
   sim_mmu_gen_illegal _ _ _ _ _ h, sim_mmu_gen_illegal _ _ _ _ _ h⟩

/-- Witness for C8 at a concrete out-of-range address. -/
theorem illegal_reference_law_witness :
    (baseSys 1 1 1).numpags ≤ 5 / (baseSys 1 1 1).pagsz ∧
    Fifo.sim_mmu (baseSys 1 1 1) 5 'R' =
      ({ baseSys 1 1 1 with
          numillegalrefs := (baseSys 1 1 1).numillegalrefs + 1 }, 2 ^ 32 - 1) :=
  ⟨by decide, (illegal_reference_law (baseSys 1 1 1) 5 'R' 0 (by decide)).1⟩

/-! ## C7: write-back accounting -/

/-- C7: `replace_page` (shared verbatim by the four variants) increments the
write-back counter exactly when the victim's modified bit is set at eviction
time, and leaves it unchanged exactly when it is clear; consequently, on the
one-frame FIFO system, the trace that loads page 0, writes it and then
faults page 1 in performs exactly one write-back, while the same trace
without the write performs none. -/
theorem write_back_law (S : SSystem) (victim : Int) (newpage : Nat) :
    ((replace_page S victim newpage).numpgwriteback = S.numpgwriteback + 1 ↔
      (S.pgt victim.toNat).modified = true) ∧
    ((replace_page S victim newpage).numpgwriteback = S.numpgwriteback ↔
      (S.pgt victim.toNat).modified = false) ∧
    (Fifo.run (init_tables (baseSys 2 1 1))
      [(0, 'R'), (0, 'W'), (1, 'R')]).numpgwriteback = 1 ∧
    (Fifo.run (init_tables (baseSys 2 1 1))
      [(0, 'R'), (1, 'R')]).numpgwriteback = 0 := by
  refine ⟨?_, ?_, by decide, by decide⟩ <;>
  · unfold replace_page
    cases h : (S.pgt victim.toNat).modified <;> simp [h]

/-! ## C2: the allocate postcondition -/

/-- C2 counterexample: in the LRU variant, `occupy_free_frame` does not
clear the modified bit, so from a state whose page 0 has the bit forced on
the claimed postcondition `modified = false` fails. -/
theorem allocate_postcondition_counterexample :
    ((Lru.occupy_free_frame modifiedStuck 0 0).pgt 0).modified = true := by
  decide

/-- C2 amended: after `occupy_free_frame S f p`, the page descriptor has
`present = true` and `frame = f` and the frame descriptor has `page = p` in
all four variants; the FIFO, random and second-chance variants additionally
set `modified = false`, while the LRU variant leaves the modified bit
unchanged (in states reachable from initialisation it is already false,
because a page faulted in through a free frame was never resident). -/
theorem allocate_postcondition_amended (S : SSystem) (f p : Nat) :
    (((Fifo.occupy_free_frame S f p).pgt p).present = true ∧
      ((Fifo.occupy_free_frame S f p).pgt p).frame = f ∧
      ((Fifo.occupy_free_frame S f p).pgt p).modified = false ∧
      ((Fifo.occupy_free_frame S f p).frt f).page = (p : Int)) ∧
    (((Rnd.occupy_free_frame S f p).pgt p).present = true ∧
      ((Rnd.occupy_free_frame S f p).pgt p).frame = f ∧
      ((Rnd.occupy_free_frame S f p).pgt p).modified = false ∧
      ((Rnd.occupy_free_frame S f p).frt f).page = (p : Int)) ∧
    (((Sc.occupy_free_frame S f p).pgt p).present = true ∧
      ((Sc.occupy_free_frame S f p).pgt p).frame = f ∧
      ((Sc.occupy_free_frame S f p).pgt p).modified = false ∧
      ((Sc.occupy_free_frame S f p).frt f).page = (p : Int)) ∧
    (((Lru.occupy_free_frame S f p).pgt p).present = true ∧
      ((Lru.occupy_free_frame S f p).pgt p).frame = f ∧
      ((Lru.occupy_free_frame S f p).pgt p).modified = (S.pgt p).modified ∧
      ((Lru.occupy_free_frame S f p).frt f).page = (p : Int)) := by
  unfold Fifo.occupy_free_frame Rnd.occupy_free_frame Sc.occupy_free_frame
    Lru.occupy_free_frame
  refine ⟨?_, by simp, ?_, by simp⟩ <;>
  · by_cases h : S.listoccupied = -1 <;> simp [h]

/-! ## C6: LRU victim selection -/

lemma lru_fold_argmin (S : SSystem) :
    ∀ k, 1 ≤ k →
    ∃ m : Nat, m < k ∧
      (List.range k).foldl
        (fun (frame : Int) (i : Nat) =>
          let frame1 := if frame = (-1 : Int) then (i : Int) else frame
          if (S.pgt ((S.frt i).page.toNat)).timestamp <
              (S.pgt ((S.frt frame1.toNat).page.toNat)).timestamp then (i : Int)
          else frame1)
        (-1) = (m : Int) ∧
      (∀ i, i < k → (S.pgt ((S.frt m).page.toNat)).timestamp ≤
        (S.pgt ((S.frt i).page.toNat)).timestamp) ∧
      (∀ i, i < m → (S.pgt ((S.frt m).page.toNat)).timestamp <
        (S.pgt ((S.frt i).page.toNat)).timestamp) := by
  intro k hk
  induction k, hk using Nat.le_induction with
  | base =>
      refine ⟨0, by omega, ?_, ?_, ?_⟩
      · have h1 : List.range 1 = [0] := rfl
        rw [h1, List.foldl_cons, List.foldl_nil]
        simp
      · intro i hi
        interval_cases i
        exact le_refl _
      · intro i hi
        omega
  | succ k hk ih =>
      obtain ⟨m, hmk, heq, hmin, hfirst⟩ := ih
      rw [List.range_succ, List.foldl_append, heq, List.foldl_cons,
        List.foldl_nil]
      have hne : ¬ ((m : Int) = (-1 : Int)) := by omega
      by_cases hlt : (S.pgt ((S.frt k).page.toNat)).timestamp <
          (S.pgt ((S.frt m).page.toNat)).timestamp
      · refine ⟨k, by omega, ?_, ?_, ?_⟩
        · simp [hne, hlt]
        · intro i hi
          rcases Nat.lt_succ_iff_lt_or_eq.mp hi with h | h
          · exact le_of_lt (lt_of_lt_of_le hlt (hmin i h))
          · subst h; exact le_refl _
        · intro i hi
          exact lt_of_lt_of_le hlt (hmin i hi)
      · refine ⟨m, by omega, ?_, ?_, ?_⟩
        · simp [hne, hlt]
        · intro i hi
          rcases Nat.lt_succ_iff_lt_or_eq.mp hi with h | h
          · exact hmin i h
          · subst h; omega
        · exact hfirst

/-- C6: with at least one frame, all of them occupied, the LRU
`choose_page_to_be_replaced` returns (without mutating the state) the page
resident in the frame whose page has the minimal timestamp, and among the
frames sharing the minimal timestamp it picks the lowest frame index (every
strictly lower frame has a strictly larger timestamp). -/
theorem lru_victim_selection (S : SSystem) (h1 : 1 ≤ S.numframes)
    (_hocc : ∀ i, i < S.numframes → 0 ≤ (S.frt i).page) :
    ∃ m, m < S.numframes ∧
      Lru.choose_page_to_be_replaced S = ((S.frt m).page, S) ∧
      (∀ i, i < S.numframes →
        (S.pgt ((S.frt m).page.toNat)).timestamp ≤
          (S.pgt ((S.frt i).page.toNat)).timestamp) ∧
      (∀ i, i < m →
        (S.pgt ((S.frt m).page.toNat)).timestamp <
          (S.pgt ((S.frt i).page.toNat)).timestamp) := by
  obtain ⟨m, hmk, heq, hmin, hfirst⟩ := lru_fold_argmin S S.numframes h1
  refine ⟨m, hmk, ?_, hmin, hfirst⟩
  unfold Lru.choose_page_to_be_replaced
  rw [heq]
  simp

/-- Witness for C6 on a concrete three-frame LRU state. -/
theorem lru_victim_selection_witness :
    (1 ≤ lruProbe.numframes ∧
      ∀ i, i < lruProbe.numframes → 0 ≤ (lruProbe.frt i).page) ∧
    (∃ m, m < lruProbe.numframes ∧
      Lru.choose_page_to_be_replaced lruProbe = ((lruProbe.frt m).page, lruProbe) ∧
      (∀ i, i < lruProbe.numframes →
        (lruProbe.pgt ((lruProbe.frt m).page.toNat)).timestamp ≤
          (lruProbe.pgt ((lruProbe.frt i).page.toNat)).timestamp) ∧
      (∀ i, i < m →
        (lruProbe.pgt ((lruProbe.frt m).page.toNat)).timestamp <
          (lruProbe.pgt ((lruProbe.frt i).page.toNat)).timestamp)) :=
  ⟨⟨by decide, by decide⟩, lru_victim_selection lruProbe (by decide) (by decide)⟩

/-! ## Ring lemmas (circular lists threaded through `frt[..].next`) -/

lemma isRing_nil (frt : Nat → SFrame) : isRing frt (-1) [] :=
  ⟨fun _ => rfl, fun h => absurd rfl h, fun i hi => by simp at hi⟩

lemma isRing_nil_iff {frt : Nat → SFrame} {t : Int} {l : List Nat}
    (hr : isRing frt t l) : l = [] ↔ t = -1 := by
  constructor
  · exact hr.1
  · intro ht
    by_contra hne
    have := hr.2.1 hne
    omega

lemma isRing_tail_toNat {frt : Nat → SFrame} {t : Int} {l : List Nat}
    (hr : isRing frt t l) (hne : l ≠ []) : t.toNat = l.getD 0 0 := by
  rw [hr.2.1 hne]
  exact Int.toNat_natCast _

lemma getD_mem_of_lt {l : List Nat} {i : Nat} (h : i < l.length) :
    l.getD i 0 ∈ l := by
  rw [List.getD_eq_getElem _ _ h]
  exact List.getElem_mem h

lemma isRing_congr {frt frt2 : Nat → SFrame} {t : Int} {l : List Nat}
    (h : ∀ x ∈ l, (frt2 x).next = (frt x).next)
    (hr : isRing frt t l) : isRing frt2 t l := by
  refine ⟨hr.1, hr.2.1, fun i hi => ?_⟩
  rw [h _ (getD_mem_of_lt hi)]
  exact hr.2.2 i hi

lemma isRing_next_mem {frt : Nat → SFrame} {t : Int} {l : List Nat}
    (hr : isRing frt t l) {x : Nat} (hx : x ∈ l) : (frt x).next ∈ l := by
  obtain ⟨i, hi, hgx⟩ := List.getElem_of_mem hx
  have hgd : l.getD i 0 = x := by
    rw [List.getD_eq_getElem _ _ hi, hgx]
  have h2 := hr.2.2 i hi
  rw [hgd] at h2
  rw [h2]
  exact getD_mem_of_lt (Nat.mod_lt _ (by omega))

lemma isRing_singleton {frt : Nat → SFrame} {f : Nat} (h : (frt f).next = f) :
    isRing frt (f : Int) [f] := by
  refine ⟨by simp, fun _ => by simp, fun i hi => ?_⟩
  simp only [List.length_singleton, Nat.lt_one_iff] at hi
  subst hi
  simpa using h

lemma isRing_rotate {frt : Nat → SFrame} {t : Int} {l : List Nat}
    (hr : isRing frt t l) (hne : l ≠ []) :
    isRing frt ((l.getD (1 % l.length) 0 : Nat) : Int) (l.rotate 1) := by
  have hlen : 0 < l.length := List.length_pos.mpr hne
  have hlr : (l.rotate 1).length = l.length := List.length_rotate l 1
  have hne2 : l.rotate 1 ≠ [] := by
    intro h
    rw [h] at hlr
    simp only [List.length_nil] at hlr
    omega
  refine ⟨fun h => absurd h hne2, fun _ => ?_, fun i hi => ?_⟩
  · congr 1
    rw [List.getD_eq_getElem _ _ (Nat.mod_lt _ hlen),
      List.getD_eq_getElem _ _ (show 0 < (l.rotate 1).length by omega)]
    rw [List.getElem_rotate]
  · have h1 : i < l.length := by omega
    have hmod : (i + 1) % (l.rotate 1).length = (i + 1) % l.length := by
      rw [hlr]
    rw [hmod]
    have e1 : (l.rotate 1).getD i 0 = l.getD ((i + 1) % l.length) 0 := by
      rw [List.getD_eq_getElem _ _ hi,
        List.getD_eq_getElem _ _ (Nat.mod_lt _ hlen)]
      exact List.getElem_rotate l 1 i hi
    have e2 : (l.rotate 1).getD ((i + 1) % l.length) 0
        = l.getD (((i + 1) % l.length + 1) % l.length) 0 := by
      have hb : (i + 1) % l.length < (l.rotate 1).length := by
        rw [hlr]
        exact Nat.mod_lt _ hlen
      rw [List.getD_eq_getElem _ _ hb,
        List.getD_eq_getElem _ _ (Nat.mod_lt _ hlen)]
      rw [List.getElem_rotate]
    rw [e1, e2]
    exact hr.2.2 ((i + 1) % l.length) (Nat.mod_lt _ hlen)

/-- Linking a fresh frame `f` after the tail `o` of the occupied ring
`o :: rest` (tail-first listing) and making `f` the new tail yields the ring
`f :: rest ++ [o]`. -/
lemma isRing_insert {frt frt' : Nat → SFrame} {t : Int} {o f : Nat}
    {rest : List Nat} (hr : isRing frt t (o :: rest))
    (h1 : (frt' f).next = (frt o).next)
    (h2 : (frt' o).next = f)
    (h3 : ∀ x ∈ rest, (frt' x).next = (frt x).next) :
    isRing frt' (f : Int) (f :: (rest ++ [o])) := by
  have key : ∀ j, j < rest.length + 2 → (f :: (rest ++ [o])).getD j 0 =
      if j = 0 then f else if j = rest.length + 1 then o
      else rest.getD (j - 1) 0 := by
    intro j hj
    match j with
    | 0 => simp
    | j + 1 =>
      rw [List.getD_cons_succ]
      rcases Nat.lt_or_ge j rest.length with h | h
      · rw [List.getD_append _ _ _ _ h]
        have e1 : ¬ (j + 1 = 0) := by omega
        have e2 : ¬ (j + 1 = rest.length + 1) := by omega
        simp [e1, e2]
      · have hj' : j = rest.length := by omega
        subst hj'
        rw [List.getD_append_right _ _ _ _ (le_refl _)]
        simp
  have okey : ∀ j, j < rest.length + 1 → (o :: rest).getD j 0 =
      if j = 0 then o else rest.getD (j - 1) 0 := by
    intro j hj
    match j with
    | 0 => simp
    | j + 1 => simp [List.getD_cons_succ]
  have hchain := hr.2.2
  simp only [List.length_cons] at hchain
  have hlnew : (f :: (rest ++ [o])).length = rest.length + 2 := by
    simp
  refine ⟨by simp, fun _ => by simp, fun i hi => ?_⟩
  rw [hlnew] at hi ⊢
  rcases Nat.eq_or_lt_of_le (Nat.succ_le_of_lt hi) with hlast | hmid
  · -- i = rest.length + 1 : the old tail o, whose next pointer is now f
    have hi' : i = rest.length + 1 := by omega
    subst hi'
    rw [key _ hi]
    have e1 : ¬ (rest.length + 1 = 0) := by omega
    rw [if_neg e1, if_pos rfl, h2]
    have e3 : rest.length + 1 + 1 = rest.length + 2 := by omega
    rw [e3, Nat.mod_self, key 0 (by omega)]
    simp
  · rcases Nat.eq_zero_or_pos i with hz | hpos
    · -- i = 0 : the new tail f, linked to the old head of the queue
      subst hz
      rw [key 0 (by omega), if_pos rfl]
      have hch := hchain 0 (by omega)
      rw [okey 0 (by omega), if_pos rfl] at hch
      rw [h1, hch]
      rw [Nat.mod_eq_of_lt (show 0 + 1 < rest.length + 2 by omega),
        key (0 + 1) (by omega)]
      rcases Nat.eq_zero_or_pos rest.length with hr0 | hrpos
      · have hr0' : rest = [] := List.length_eq_zero.mp hr0
        subst hr0'
        simp
      · have e1 : ¬ (0 + 1 = 0) := by omega
        have e2 : ¬ (0 + 1 = rest.length + 1) := by omega
        simp only [e1, e2, if_false]
        rw [Nat.mod_eq_of_lt (show 0 + 1 < rest.length + 1 by omega),
          okey (0 + 1) (by omega)]
        simp
    · -- 1 ≤ i ≤ rest.length : interior of the queue, untouched
      have hin : i - 1 < rest.length := by omega
      rw [key i (by omega)]
      have e1 : ¬ (i = 0) := by omega
      have e2 : ¬ (i = rest.length + 1) := by omega
      simp only [e1, e2, if_false]
      rw [h3 _ (getD_mem_of_lt hin)]
      have hch := hchain i (by omega)
      rw [okey i (by omega)] at hch
      simp only [e1, if_false] at hch
      rw [hch]
      rcases Nat.lt_or_ge i rest.length with hlt | hge
      · rw [Nat.mod_eq_of_lt (show i + 1 < rest.length + 1 by omega),
          okey (i + 1) (by omega)]
        rw [Nat.mod_eq_of_lt (show i + 1 < rest.length + 2 by omega),
          key (i + 1) (by omega)]
        have e3 : ¬ (i + 1 = 0) := by omega
        have e4 : ¬ (i + 1 = rest.length + 1) := by omega
        simp only [e3, e4, if_false]
      · have hieq : i = rest.length := by omega
        subst hieq
        rw [Nat.mod_self, okey 0 (by omega), if_pos rfl]
        rw [Nat.mod_eq_of_lt (show rest.length + 1 < rest.length + 2 by omega),
          key (rest.length + 1) (by omega)]
        have e3 : ¬ (rest.length + 1 = 0) := by omega
        rw [if_neg e3, if_pos rfl]

/-- Detaching the frame after the tail from the free ring `a :: b :: rest`
(tail-first listing; the detached frame is `b`, and the tail's next pointer
is redirected to `b`'s next) yields the ring `a :: rest`. -/
lemma isRing_detach {frt frt' : Nat → SFrame} {t : Int} {a b : Nat}
    {rest : List Nat} (hr : isRing frt t (a :: b :: rest))
    (h0 : (frt' a).next = (frt b).next)
    (h3 : ∀ x ∈ rest, (frt' x).next = (frt x).next) :
    isRing frt' t (a :: rest) := by
  have hchain := hr.2.2
  simp only [List.length_cons] at hchain
  have htail : t = (a : Int) := by
    have := hr.2.1 (by simp)
    simpa using this
  refine ⟨by simp, fun _ => by simpa using htail, fun i hi => ?_⟩
  simp only [List.length_cons] at hi ⊢
  rcases Nat.eq_zero_or_pos i with hz | hpos
  · -- i = 0 : the tail a now points at b's successor
    subst hz
    rw [List.getD_cons_zero, h0]
    have hch := hchain 1 (by omega)
    rw [(by rfl : (a :: b :: rest).getD 1 0 = b)] at hch
    rw [hch]
    rcases Nat.eq_zero_or_pos rest.length with hr0 | hrpos
    · have hr0' : rest = [] := List.length_eq_zero.mp hr0
      subst hr0'
      norm_num
    · rw [Nat.mod_eq_of_lt (show 1 + 1 < rest.length + 1 + 1 by omega),
        Nat.mod_eq_of_lt (show 0 + 1 < rest.length + 1 by omega)]
      simp [List.getD_cons_succ]
  · -- 1 ≤ i ≤ rest.length : interior untouched
    obtain ⟨j, rfl⟩ : ∃ j, i = j + 1 := ⟨i - 1, by omega⟩
    rw [List.getD_cons_succ]
    rw [h3 _ (getD_mem_of_lt (by omega))]
    have hch := hchain (j + 2) (by omega)
    rw [(by simp [List.getD_cons_succ] :
      (a :: b :: rest).getD (j + 2) 0 = rest.getD j 0)] at hch
    rw [hch]
    rcases Nat.lt_or_ge (j + 1) rest.length with hlt | hge
    · rw [Nat.mod_eq_of_lt (show j + 2 + 1 < rest.length + 1 + 1 by omega),
        Nat.mod_eq_of_lt (show j + 1 + 1 < rest.length + 1 by omega)]
      simp [List.getD_cons_succ]
    · have hieq : j + 1 = rest.length := by omega
      have e1 : j + 2 + 1 = rest.length + 1 + 1 := by omega
      have e2 : j + 1 + 1 = rest.length + 1 := by omega
      rw [e1, e2, Nat.mod_self, Nat.mod_self]
      simp

/-! ## The initial free ring -/

lemma initFrt_ring (S : SSystem) (h1 : 1 ≤ S.numframes) :
    isRing (initFrt S) ((S.numframes - 1 : Nat) : Int)
      ((S.numframes - 1) :: List.range (S.numframes - 1)) := by
  have rkey : ∀ j, j < S.numframes - 1 →
      (List.range (S.numframes - 1)).getD j 0 = j := by
    intro j hj
    rw [List.getD_eq_getElem _ _ (by simpa using hj), List.getElem_range]
  refine ⟨by simp, fun _ => by simp, fun i hi => ?_⟩
  simp only [List.length_cons, List.length_range] at hi ⊢
  have hlen : S.numframes - 1 + 1 = S.numframes := by omega
  rw [hlen] at hi ⊢
  rcases Nat.eq_zero_or_pos i with hz | hpos
  · -- the tail frame numframes-1 points at frame 0
    subst hz
    rw [List.getD_cons_zero]
    have : initFrt S (S.numframes - 1) = { page := -1, next := 0 } := by
      unfold initFrt
      rw [if_neg (by omega), if_pos rfl]
    rw [this]
    rcases Nat.eq_or_lt_of_le h1 with h1' | h2
    · -- one frame: 1 % 1 = 0 and the list is [0]
      rw [← h1', Nat.mod_self, List.getD_cons_zero]
    · rw [Nat.mod_eq_of_lt (by omega), List.getD_cons_succ, rkey 0 (by omega)]
  · -- frame i-1 points at frame i
    obtain ⟨j, rfl⟩ : ∃ j, i = j + 1 := ⟨i - 1, by omega⟩
    rw [List.getD_cons_succ, rkey j (by omega)]
    have : initFrt S j = { page := -1, next := j + 1 } := by
      unfold initFrt
      rw [if_pos (by omega)]
    rw [this]
    rcases Nat.lt_or_ge (j + 1 + 1) S.numframes with hlt | hge
    · rw [Nat.mod_eq_of_lt hlt, List.getD_cons_succ, rkey (j + 1) (by omega)]
    · have e1 : j + 1 + 1 = S.numframes := by omega
      rw [e1, Nat.mod_self, List.getD_cons_zero]
      show j + 1 = S.numframes - 1
      omega

lemma init_ring_perm (n : Nat) (h1 : 1 ≤ n) :
    (((n - 1) :: List.range (n - 1)) ++ []).Perm (List.range n) := by
  rw [List.append_nil]
  have e2 : List.range n = List.range (n - 1) ++ [n - 1] := by
    have e : n = (n - 1) + 1 := by omega
    conv_lhs => rw [e]
    rw [List.range_succ]
  rw [e2]
  exact @List.perm_append_comm Nat [n - 1] (List.range (n - 1))

/-! ## Field-preservation lemmas for the policy operations -/

lemma reference_page_rw_fields (S : SSystem) (p : Nat) (o : Char) :
    (reference_page_rw S p o).frt = S.frt ∧
    (reference_page_rw S p o).listfree = S.listfree ∧
    (reference_page_rw S p o).listoccupied = S.listoccupied ∧
    (reference_page_rw S p o).numframes = S.numframes ∧
    (reference_page_rw S p o).pagsz = S.pagsz := by
  unfold reference_page_rw
  split
  · exact ⟨rfl, rfl, rfl, rfl, rfl⟩
  · split
    · exact ⟨rfl, rfl, rfl, rfl, rfl⟩
    · exact ⟨rfl, rfl, rfl, rfl, rfl⟩

lemma sc_reference_page_fields (S : SSystem) (p : Nat) (o : Char) :
    (Sc.reference_page S p o).frt = S.frt ∧
    (Sc.reference_page S p o).listfree = S.listfree ∧
    (Sc.reference_page S p o).listoccupied = S.listoccupied ∧
    (Sc.reference_page S p o).numframes = S.numframes ∧
    (Sc.reference_page S p o).pagsz = S.pagsz := by
  unfold Sc.reference_page
  obtain ⟨e1, e2, e3, e4, e5⟩ := reference_page_rw_fields S p o
  exact ⟨by simp [e1], by simp [e2], by simp [e3], by simp [e4], by simp [e5]⟩

lemma lru_reference_page_fields (S : SSystem) (p : Nat) (o : Char) :
    (Lru.reference_page S p o).frt = S.frt ∧
    (Lru.reference_page S p o).listfree = S.listfree ∧
    (Lru.reference_page S p o).listoccupied = S.listoccupied ∧
    (Lru.reference_page S p o).numframes = S.numframes ∧
    (Lru.reference_page S p o).pagsz = S.pagsz := by
  unfold Lru.reference_page
  obtain ⟨e1, e2, e3, e4, e5⟩ := reference_page_rw_fields S p o
  exact ⟨by simp [e1], by simp [e2], by simp [e3], by simp [e4], by simp [e5]⟩

lemma replace_page_fields (S : SSystem) (v : Int) (p : Nat) :
    (∀ f, ((replace_page S v p).frt f).next = (S.frt f).next) ∧
    (replace_page S v p).listfree = S.listfree ∧
    (replace_page S v p).listoccupied = S.listoccupied ∧
    (replace_page S v p).numframes = S.numframes ∧
    (replace_page S v p).pagsz = S.pagsz := by
  unfold replace_page
  cases h : (S.pgt v.toNat).modified <;>
    refine ⟨fun f => ?_, rfl, rfl, rfl, rfl⟩ <;>
  · simp only [h, updFr_frt, updPg_frt, Bool.false_eq_true, if_false, if_true]
    split
    · next heq => rw [heq]
    · rfl

lemma replace_page_present (S : SSystem) (v : Int) (p : Nat) :
    ((replace_page S v p).pgt p).present = true := by
  unfold replace_page
  cases h : (S.pgt v.toNat).modified <;> simp [h]

/-! ## Ring behaviour of `occupy_free_frame` (FIFO and second-chance) -/

lemma fifo_occupy_scalars (S : SSystem) (frame page : Nat) :
    (Fifo.occupy_free_frame S frame page).listfree = S.listfree ∧
    (Fifo.occupy_free_frame S frame page).listoccupied = (frame : Int) ∧
    (Fifo.occupy_free_frame S frame page).numframes = S.numframes ∧
    (Fifo.occupy_free_frame S frame page).pagsz = S.pagsz := by
  unfold Fifo.occupy_free_frame
  split <;> exact ⟨rfl, rfl, rfl, rfl⟩

lemma sc_occupy_scalars (S : SSystem) (frame page : Nat) :
    (Sc.occupy_free_frame S frame page).listfree = S.listfree ∧
    (Sc.occupy_free_frame S frame page).listoccupied = (frame : Int) ∧
    (Sc.occupy_free_frame S frame page).numframes = S.numframes ∧
    (Sc.occupy_free_frame S frame page).pagsz = S.pagsz := by
  unfold Sc.occupy_free_frame
  split <;> exact ⟨rfl, rfl, rfl, rfl⟩

lemma fifo_occupy_rings (S : SSystem) (frame page : Nat) (ol : List Nat)
    (ho : isRing S.frt S.listoccupied ol) (hnd : ol.Nodup) (hnotin : frame ∉ ol) :
    ∃ ol', ol'.Perm (frame :: ol) ∧
      isRing (Fifo.occupy_free_frame S frame page).frt
        (Fifo.occupy_free_frame S frame page).listoccupied ol' ∧
      (∀ x, x ∉ ol → x ≠ frame →
        ((Fifo.occupy_free_frame S frame page).frt x).next = (S.frt x).next) := by
  cases ol with
  | nil =>
      have hlo : S.listoccupied = -1 := ho.1 rfl
      refine ⟨[frame], List.Perm.refl _, ?_, ?_⟩
      · have hocc : (Fifo.occupy_free_frame S frame page).listoccupied
            = (frame : Int) := (fifo_occupy_scalars S frame page).2.1
        rw [hocc]
        apply isRing_singleton
        unfold Fifo.occupy_free_frame
        rw [if_pos hlo]
        simp
      · intro x hx hxf
        unfold Fifo.occupy_free_frame
        rw [if_pos hlo]
        simp [hxf]
  | cons o rest =>
      have hlo : S.listoccupied = (o : Int) := by
        have := ho.2.1 (by simp)
        simpa using this
      have hlon : S.listoccupied.toNat = o := by
        rw [hlo]
        exact Int.toNat_natCast o
      have hne : ¬ (S.listoccupied = -1) := by
        rw [hlo]
        omega
      have hfo : frame ≠ o := fun h => hnotin (h ▸ List.mem_cons_self _ _)
      have honotr : o ∉ rest := (List.nodup_cons.mp hnd).1
      have hnext : ∀ x, ((Fifo.occupy_free_frame S frame page).frt x).next =
          if x = o then frame
          else if x = frame then (S.frt o).next
          else (S.frt x).next := by
        intro x
        unfold Fifo.occupy_free_frame
        rw [if_neg hne]
        simp only [updFr_frt, updPg_frt, hlon]
        by_cases hx1 : x = o
        · subst hx1
          simp [Ne.symm hfo]
        · by_cases hx2 : x = frame
          · subst hx2
            simp [hfo, hx1]
          · simp [hx1, hx2]
      have hocc : (Fifo.occupy_free_frame S frame page).listoccupied
          = (frame : Int) := (fifo_occupy_scalars S frame page).2.1
      refine ⟨frame :: (rest ++ [o]), ?_, ?_, ?_⟩
      · exact List.Perm.cons _ (@List.perm_append_comm _ rest [o])
      · rw [hocc]
        refine isRing_insert ho ?_ ?_ ?_
        · rw [hnext frame, if_neg hfo, if_pos rfl]
        · rw [hnext o, if_pos rfl]
        · intro x hx
          rw [hnext x, if_neg (show ¬ x = o by rintro rfl; exact honotr hx),
            if_neg (show ¬ x = frame by
              rintro rfl
              exact hnotin (List.mem_cons_of_mem _ hx))]
      · intro x hx hxf
        rw [hnext x,
          if_neg (show ¬ x = o by rintro rfl; exact hx (List.mem_cons_self _ _)),
          if_neg hxf]

lemma sc_occupy_rings (S : SSystem) (frame page : Nat) (ol : List Nat)
    (ho : isRing S.frt S.listoccupied ol) (hnd : ol.Nodup) (hnotin : frame ∉ ol) :
    ∃ ol', ol'.Perm (frame :: ol) ∧
      isRing (Sc.occupy_free_frame S frame page).frt
        (Sc.occupy_free_frame S frame page).listoccupied ol' ∧
      (∀ x, x ∉ ol → x ≠ frame →
        ((Sc.occupy_free_frame S frame page).frt x).next = (S.frt x).next) := by
  cases ol with
  | nil =>
      have hlo : S.listoccupied = -1 := ho.1 rfl
      refine ⟨[frame], List.Perm.refl _, ?_, ?_⟩
      · have hocc : (Sc.occupy_free_frame S frame page).listoccupied
            = (frame : Int) := (sc_occupy_scalars S frame page).2.1
        rw [hocc]
        apply isRing_singleton
        unfold Sc.occupy_free_frame
        rw [if_pos hlo]
        simp
      · intro x hx hxf
        unfold Sc.occupy_free_frame
        rw [if_pos hlo]
        simp [hxf]
  | cons o rest =>
      have hlo : S.listoccupied = (o : Int) := by
        have := ho.2.1 (by simp)
        simpa using this
      have hlon : S.listoccupied.toNat = o := by
        rw [hlo]
        exact Int.toNat_natCast o
      have hne : ¬ (S.listoccupied = -1) := by
        rw [hlo]
        omega
      have hfo : frame ≠ o := fun h => hnotin (h ▸ List.mem_cons_self _ _)
      have honotr : o ∉ rest := (List.nodup_cons.mp hnd).1
      have hnext : ∀ x, ((Sc.occupy_free_frame S frame page).frt x).next =
          if x = o then frame
          else if x = frame then (S.frt o).next
          else (S.frt x).next := by
        intro x
        unfold Sc.occupy_free_frame
        rw [if_neg hne]
        simp only [updFr_frt, updPg_frt, hlon]
        by_cases hx1 : x = o
        · subst hx1
          simp [Ne.symm hfo]
        · by_cases hx2 : x = frame
          · subst hx2
            simp [hfo, hx1]
          · simp [hx1, hx2]
      have hocc : (Sc.occupy_free_frame S frame page).listoccupied
          = (frame : Int) := (sc_occupy_scalars S frame page).2.1
      refine ⟨frame :: (rest ++ [o]), ?_, ?_, ?_⟩
      · exact List.Perm.cons _ (@List.perm_append_comm _ rest [o])
      · rw [hocc]
        refine isRing_insert ho ?_ ?_ ?_
        · rw [hnext frame, if_neg hfo, if_pos rfl]
        · rw [hnext o, if_pos rfl]
        · intro x hx
          rw [hnext x, if_neg (show ¬ x = o by rintro rfl; exact honotr hx),
            if_neg (show ¬ x = frame by
              rintro rfl
              exact hnotin (List.mem_cons_of_mem _ hx))]
      · intro x hx hxf
        rw [hnext x,
          if_neg (show ¬ x = o by rintro rfl; exact hx (List.mem_cons_self _ _)),
          if_neg hxf]

/-! ## Ring behaviour of `choose_page_to_be_replaced` -/

lemma fifo_choose_rings (S : SSystem) (ol : List Nat)
    (ho : isRing S.frt S.listoccupied ol) (hne : ol ≠ []) :
    (Fifo.choose_page_to_be_replaced S).2.frt = S.frt ∧
    (Fifo.choose_page_to_be_replaced S).2.listfree = S.listfree ∧
    (Fifo.choose_page_to_be_replaced S).2.numframes = S.numframes ∧
    (Fifo.choose_page_to_be_replaced S).2.pagsz = S.pagsz ∧
    (Fifo.choose_page_to_be_replaced S).2.pgt = S.pgt ∧
    ∃ ol', ol'.Perm ol ∧
      isRing (Fifo.choose_page_to_be_replaced S).2.frt
        (Fifo.choose_page_to_be_replaced S).2.listoccupied ol' := by
  refine ⟨rfl, rfl, rfl, rfl, rfl, ol.rotate 1, List.rotate_perm ol 1, ?_⟩
  show isRing S.frt (((S.frt S.listoccupied.toNat).next : Nat) : Int) (ol.rotate 1)
  have h1 : S.listoccupied.toNat = ol.getD 0 0 := isRing_tail_toNat ho hne
  have h2 : (S.frt (ol.getD 0 0)).next = ol.getD (1 % ol.length) 0 :=
    ho.2.2 0 (List.length_pos.mpr hne)
  rw [h1, h2]
  exact isRing_rotate ho hne

lemma sc_choose_aux_rings : ∀ (fuel : Nat) (S : SSystem) (ol : List Nat),
    isRing S.frt S.listoccupied ol → ol ≠ [] →
    ∀ v S', Sc.choose_aux fuel S = some (v, S') →
      S'.frt = S.frt ∧ S'.listfree = S.listfree ∧ S'.numframes = S.numframes ∧
      S'.pagsz = S.pagsz ∧
      ∃ ol', ol'.Perm ol ∧ isRing S'.frt S'.listoccupied ol' := by
  intro fuel
  induction fuel with
  | zero =>
      intro S ol _ _ v S' heq
      simp [Sc.choose_aux] at heq
  | succ fuel ih =>
      intro S ol ho hne v S' heq
      rw [Sc.choose_aux] at heq
      by_cases href :
          (S.pgt ((S.frt ((S.frt S.listoccupied.toNat).next)).page.toNat)).referenced = true
      · rw [if_pos href] at heq
        set S1 := { updPg S ((S.frt ((S.frt S.listoccupied.toNat).next)).page.toNat)
            (fun pg => { pg with referenced := false }) with
          listoccupied := (((S.frt S.listoccupied.toNat).next : Nat) : Int) } with hS1
        have hS1frt : S1.frt = S.frt := rfl
        have hS1occ : S1.listoccupied
            = (((S.frt S.listoccupied.toNat).next : Nat) : Int) := rfl
        have hring1 : isRing S1.frt S1.listoccupied (ol.rotate 1) := by
          rw [hS1frt, hS1occ]
          have h1 : S.listoccupied.toNat = ol.getD 0 0 := isRing_tail_toNat ho hne
          have h2 : (S.frt (ol.getD 0 0)).next = ol.getD (1 % ol.length) 0 :=
            ho.2.2 0 (List.length_pos.mpr hne)
          rw [h1, h2]
          exact isRing_rotate ho hne
        have hne1 : ol.rotate 1 ≠ [] := by
          intro h
          have := List.length_rotate ol 1
          rw [h] at this
          simp only [List.length_nil] at this
          exact hne (List.length_eq_zero.mp this.symm)
        obtain ⟨e1, e2, e3, e4, ol', hperm, hring⟩ := ih S1 (ol.rotate 1) hring1 hne1 v S' heq
        exact ⟨e1, e2, e3, e4, ol', hperm.trans (List.rotate_perm ol 1), hring⟩
      · rw [if_neg href] at heq
        obtain ⟨rfl, rfl⟩ : (S.frt ((S.frt S.listoccupied.toNat).next)).page = v ∧ S = S' := by
          have := Option.some.inj heq
          exact ⟨congrArg Prod.fst this, congrArg Prod.snd this⟩
        exact ⟨rfl, rfl, rfl, rfl, ol, List.Perm.refl _, ho⟩

/-! ## C4: termination of the second-chance walk -/

lemma refCount_clear_lt (S T : SSystem) (frame : Nat)
    (hfrt : T.frt = S.frt) (hnum : T.numframes = S.numframes)
    (hpgt : ∀ q, T.pgt q = if q = (S.frt frame).page.toNat
        then { S.pgt ((S.frt frame).page.toNat) with referenced := false }
        else S.pgt q)
    (hfr : frame < S.numframes)
    (href : (S.pgt ((S.frt frame).page.toNat)).referenced = true) :
    refCount T < refCount S := by
  unfold refCount
  simp only [hfrt, hnum]
  have hsub : (Finset.range S.numframes).filter
        (fun f => (T.pgt ((S.frt f).page.toNat)).referenced = true) ⊆
      (Finset.range S.numframes).filter
        (fun f => (S.pgt ((S.frt f).page.toNat)).referenced = true) := by
    intro f hf
    simp only [Finset.mem_filter] at hf ⊢
    obtain ⟨hf1, hf2⟩ := hf
    refine ⟨hf1, ?_⟩
    rw [hpgt] at hf2
    by_cases h : (S.frt f).page.toNat = (S.frt frame).page.toNat
    · rw [if_pos h] at hf2
      exact absurd hf2 (by simp)
    · rwa [if_neg h] at hf2
  apply Finset.card_lt_card
  rw [Finset.ssubset_iff_of_subset hsub]
  refine ⟨frame, ?_, ?_⟩
  · simp only [Finset.mem_filter, Finset.mem_range]
    exact ⟨hfr, href⟩
  · simp only [Finset.mem_filter, Finset.mem_range, not_and]
    intro _
    rw [hpgt, if_pos rfl]
    simp

lemma sc_choose_aux_total : ∀ (fuel : Nat) (S : SSystem) (ol : List Nat),
    refCount S < fuel →
    isRing S.frt S.listoccupied ol → ol.Perm (List.range S.numframes) →
    1 ≤ S.numframes →
    ∃ v S', Sc.choose_aux fuel S = some (v, S') ∧
      (S'.pgt v.toNat).referenced = false := by
  intro fuel
  induction fuel with
  | zero =>
      intro S ol hlt _ _ _
      omega
  | succ fuel ih =>
      intro S ol hlt ho hperm h1
      have hne : ol ≠ [] := by
        intro h
        have hlen := hperm.length_eq
        rw [h, List.length_range] at hlen
        simp only [List.length_nil] at hlen
        omega
      by_cases href :
          (S.pgt ((S.frt ((S.frt S.listoccupied.toNat).next)).page.toNat)).referenced = true
      · -- pardon: clear the bit, advance the tail, recurse on a smaller count
        have hmem : (S.frt S.listoccupied.toNat).next ∈ ol := by
          have htail : S.listoccupied.toNat ∈ ol := by
            rw [isRing_tail_toNat ho hne]
            exact getD_mem_of_lt (List.length_pos.mpr hne)
          exact isRing_next_mem ho htail
        have hfr : (S.frt S.listoccupied.toNat).next < S.numframes :=
          List.mem_range.mp (hperm.mem_iff.mp hmem)
        have hcount := refCount_clear_lt S
          { updPg S ((S.frt ((S.frt S.listoccupied.toNat).next)).page.toNat)
              (fun pg => { pg with referenced := false }) with
            listoccupied := (((S.frt S.listoccupied.toNat).next : Nat) : Int) }
          ((S.frt S.listoccupied.toNat).next) rfl rfl (fun q => rfl) hfr href
        have hring1 : isRing S.frt
            (((S.frt S.listoccupied.toNat).next : Nat) : Int) (ol.rotate 1) := by
          have e1 : S.listoccupied.toNat = ol.getD 0 0 := isRing_tail_toNat ho hne
          have e2 : (S.frt (ol.getD 0 0)).next = ol.getD (1 % ol.length) 0 :=
            ho.2.2 0 (List.length_pos.mpr hne)
          rw [e1, e2]
          exact isRing_rotate ho hne
        obtain ⟨v, S', heq, hv⟩ := ih
          { updPg S ((S.frt ((S.frt S.listoccupied.toNat).next)).page.toNat)
              (fun pg => { pg with referenced := false }) with
            listoccupied := (((S.frt S.listoccupied.toNat).next : Nat) : Int) }
          (ol.rotate 1) (by omega) hring1
          ((List.rotate_perm ol 1).trans hperm) h1
        refine ⟨v, S', ?_, hv⟩
        rw [Sc.choose_aux, if_pos href]
        exact heq
      · exact ⟨(S.frt ((S.frt S.listoccupied.toNat).next)).page, S,
          by rw [Sc.choose_aux, if_neg href], by simpa using href⟩

/-- C4: whenever the second-chance `choose_page_to_be_replaced` is invoked
in a state whose occupied ring is non-empty and covers all `numframes`
frames (the situation in which the fault handler calls it, the free ring
being empty), the walk terminates within `numframes + 1` steps: each
pardoned page has its referenced bit cleared, so after at most one full
sweep a page with a clear referenced bit is found and returned as the
victim. -/
theorem second_chance_termination (S : SSystem) (ol : List Nat)
    (ho : isRing S.frt S.listoccupied ol)
    (hperm : ol.Perm (List.range S.numframes))
    (h1 : 1 ≤ S.numframes) :
    ∃ v S', Sc.choose_aux (S.numframes + 1) S = some (v, S') ∧
      (S'.pgt v.toNat).referenced = false ∧
      Sc.choose_page_to_be_replaced S = (v, S') := by
  have hcount : refCount S < S.numframes + 1 := by
    have hle : refCount S ≤ S.numframes := by
      unfold refCount
      calc ((Finset.range S.numframes).filter _).card
          ≤ (Finset.range S.numframes).card := Finset.card_filter_le _ _
        _ = S.numframes := Finset.card_range _
    omega
  obtain ⟨v, S', heq, href⟩ :=
    sc_choose_aux_total (S.numframes + 1) S ol hcount ho hperm h1
  refine ⟨v, S', heq, href, ?_⟩
  unfold Sc.choose_page_to_be_replaced
  rw [heq]
  rfl

/-- Witness for C4 on a concrete fully-occupied two-frame state. -/
theorem second_chance_termination_witness :
    (isRing scProbe.frt scProbe.listoccupied [1, 0] ∧
      ([1, 0] : List Nat).Perm (List.range scProbe.numframes) ∧
      1 ≤ scProbe.numframes) ∧
    (∃ v S', Sc.choose_aux (scProbe.numframes + 1) scProbe = some (v, S') ∧
      (S'.pgt v.toNat).referenced = false ∧
      Sc.choose_page_to_be_replaced scProbe = (v, S')) :=
  ⟨⟨by decide, by decide, by decide⟩,
    second_chance_termination scProbe [1, 0] (by decide) (by decide) (by decide)⟩

/-! ## Ring preservation through the fault handler -/

lemma handle_gen_rings
    (choose : SSystem → Int × SSystem) (occupy : SSystem → Nat → Nat → SSystem)
    (hchoose : ∀ T ol, isRing T.frt T.listoccupied ol → ol ≠ [] →
      (choose T).2.frt = T.frt ∧ (choose T).2.listfree = T.listfree ∧
      (choose T).2.numframes = T.numframes ∧
      ∃ ol2, ol2.Perm ol ∧ isRing (choose T).2.frt (choose T).2.listoccupied ol2)
    (hoccupy : ∀ T frame page ol, isRing T.frt T.listoccupied ol → ol.Nodup →
      frame ∉ ol →
      ∃ ol2, ol2.Perm (frame :: ol) ∧
        isRing (occupy T frame page).frt (occupy T frame page).listoccupied ol2 ∧
        (∀ x, x ∉ ol → x ≠ frame →
          ((occupy T frame page).frt x).next = (T.frt x).next))
    (hoccScalar : ∀ T frame page,
      (occupy T frame page).listfree = T.listfree ∧
      (occupy T frame page).numframes = T.numframes)
    (S : SSystem) (va : Nat) (fl ol : List Nat)
    (hf : isRing S.frt S.listfree fl) (ho : isRing S.frt S.listoccupied ol)
    (hp : (fl ++ ol).Perm (List.range S.numframes)) (h1 : 1 ≤ S.numframes) :
    ∃ fl2 ol2,
      isRing (handle_page_fault_gen choose occupy S va).frt
        (handle_page_fault_gen choose occupy S va).listfree fl2 ∧
      isRing (handle_page_fault_gen choose occupy S va).frt
        (handle_page_fault_gen choose occupy S va).listoccupied ol2 ∧
      (fl2 ++ ol2).Perm (List.range S.numframes) ∧
      fl2.Sublist fl ∧
      (handle_page_fault_gen choose occupy S va).numframes = S.numframes := by
  have hnodup : (fl ++ ol).Nodup := (hp.nodup_iff).mpr (List.nodup_range _)
  obtain ⟨hfnd, hond, hdisj⟩ := List.nodup_append.mp hnodup
  by_cases hfree : S.listfree = -1
  · -- eviction path: the free ring is empty and stays empty
    have hfl : fl = [] := (isRing_nil_iff hf).mpr hfree
    subst hfl
    have hone : ol ≠ [] := by
      intro h
      have hlen := hp.length_eq
      rw [h, List.length_range] at hlen
      simp only [List.nil_append, List.length_nil] at hlen
      omega
    have heq : handle_page_fault_gen choose occupy S va =
        replace_page (choose { S with numpagefaults := S.numpagefaults + 1 }).2
          (choose { S with numpagefaults := S.numpagefaults + 1 }).1
          (va / S.pagsz) := by
      unfold handle_page_fault_gen
      rw [if_neg (show ¬ ¬ (({ S with numpagefaults := S.numpagefaults + 1 } :
        SSystem).listfree = -1) from not_not_intro hfree)]
    rw [heq]
    obtain ⟨hcf, hclf, hcn, ol2, hperm2, hring2⟩ :=
      hchoose { S with numpagefaults := S.numpagefaults + 1 } ol ho hone
    obtain ⟨hrnext, hrlf, hrlo, hrn, _⟩ := replace_page_fields
      (choose { S with numpagefaults := S.numpagefaults + 1 }).2
      (choose { S with numpagefaults := S.numpagefaults + 1 }).1 (va / S.pagsz)
    refine ⟨[], ol2, ?_, ?_, ?_, List.Sublist.refl _, ?_⟩
    · rw [hrlf, hclf]
      have hlf0 : ({ S with numpagefaults := S.numpagefaults + 1 } :
          SSystem).listfree = -1 := hfree
      rw [hlf0]
      exact isRing_nil _
    · rw [hrlo]
      exact isRing_congr (fun x _ => hrnext x) hring2
    · simpa using hperm2.trans (by simpa using hp)
    · rw [hrn, hcn]
  · -- free path: detach the frame after the free tail, link it as occupied
    cases fl with
    | nil => exact absurd (hf.1 rfl) hfree
    | cons a rest1 =>
      have ha : S.listfree = (a : Int) := by
        have := hf.2.1 (by simp)
        simpa using this
      have hfchain := hf.2.2
      have haol : a ∉ ol := hdisj (List.mem_cons_self a rest1)
      have heq : handle_page_fault_gen choose occupy S va =
          occupy (if (S.frt a).next = a
              then { { S with numpagefaults := S.numpagefaults + 1 } with
                listfree := -1 }
              else updFr { S with numpagefaults := S.numpagefaults + 1 } a
                (fun fr => { fr with next := (S.frt ((S.frt a).next)).next }))
            ((S.frt a).next) (va / S.pagsz) := by
        unfold handle_page_fault_gen
        rw [if_pos (show ¬ (({ S with numpagefaults := S.numpagefaults + 1 } :
          SSystem).listfree = -1) from hfree)]
        simp only [ha, Int.toNat_natCast]
      rw [heq]
      by_cases hfa : (S.frt a).next = a
      · -- the detached frame was the only free one
        rw [if_pos hfa, hfa]
        have hrest : rest1 = [] := by
          cases rest1 with
          | nil => rfl
          | cons b r2 =>
              exfalso
              have hch := hfchain 0 (by simp)
              have hmod : (0 + 1) % (a :: b :: r2).length = 1 := by
                simp only [List.length_cons]
                exact Nat.mod_eq_of_lt (by omega)
              rw [hmod] at hch
              simp only [List.getD_cons_zero, List.getD_cons_succ] at hch
              rw [hfa] at hch
              exact (List.nodup_cons.mp hfnd).1 (hch ▸ List.mem_cons_self b r2)
        subst hrest
        obtain ⟨ol2, hperm2, hring2, _⟩ := hoccupy
          { { S with numpagefaults := S.numpagefaults + 1 } with listfree := -1 }
          a (va / S.pagsz) ol ho hond haol
        obtain ⟨hsf, hsn⟩ := hoccScalar
          { { S with numpagefaults := S.numpagefaults + 1 } with listfree := -1 }
          a (va / S.pagsz)
        refine ⟨[], ol2, ?_, hring2, ?_, List.nil_sublist _, ?_⟩
        · rw [hsf]
          exact isRing_nil _
        · simpa using hperm2.trans (by simpa using hp)
        · rw [hsn]
      · -- detach from a longer free ring
        cases rest1 with
        | nil =>
            exfalso
            have hch := hfchain 0 (by simp)
            simp only [List.length_singleton, Nat.mod_self,
              List.getD_cons_zero] at hch
            exact hfa hch
        | cons b r2 =>
            have hframe : (S.frt a).next = b := by
              have hch := hfchain 0 (by simp)
              have hmod : (0 + 1) % (a :: b :: r2).length = 1 := by
                simp only [List.length_cons]
                exact Nat.mod_eq_of_lt (by omega)
              rw [hmod] at hch
              simpa only [List.getD_cons_zero, List.getD_cons_succ] using hch
            rw [if_neg hfa, hframe]
            have hb_ol : b ∉ ol := hdisj (by simp)
            have habr : a ∉ b :: r2 := (List.nodup_cons.mp hfnd).1
            have hab : a ≠ b := fun h => habr (h ▸ List.mem_cons_self _ _)
            have hbr2 : b ∉ r2 :=
              (List.nodup_cons.mp (List.nodup_cons.mp hfnd).2).1
            have hfree1 : isRing (updFr { S with
                numpagefaults := S.numpagefaults + 1 } a
                (fun fr => { fr with next := (S.frt b).next })).frt
                S.listfree (a :: r2) := by
              refine isRing_detach hf ?_ ?_
              · simp [updFr]
              · intro x hx
                have hxa : x ≠ a := fun h =>
                  habr (h ▸ List.mem_cons_of_mem _ hx)
                simp [updFr, hxa]
            have ho1 : isRing (updFr { S with
                numpagefaults := S.numpagefaults + 1 } a
                (fun fr => { fr with next := (S.frt b).next })).frt
                (updFr { S with numpagefaults := S.numpagefaults + 1 } a
                  (fun fr => { fr with next := (S.frt b).next })).listoccupied
                ol := by
              refine isRing_congr ?_ ho
              intro x hx
              have hxa : x ≠ a := fun h => hdisj (h ▸ List.mem_cons_self _ _) hx
              simp [updFr, hxa]
            obtain ⟨ol2, hperm2, hring2, hpres⟩ := hoccupy
              (updFr { S with numpagefaults := S.numpagefaults + 1 } a
                (fun fr => { fr with next := (S.frt b).next }))
              b (va / S.pagsz) ol ho1 hond hb_ol
            obtain ⟨hsf, hsn⟩ := hoccScalar
              (updFr { S with numpagefaults := S.numpagefaults + 1 } a
                (fun fr => { fr with next := (S.frt b).next }))
              b (va / S.pagsz)
            refine ⟨a :: r2, ol2, ?_, hring2, ?_, ?_, ?_⟩
            · rw [hsf]
              refine isRing_congr ?_ hfree1
              intro x hx
              refine hpres x ?_ ?_
              · intro hxol
                rcases List.mem_cons.mp hx with rfl | hxr
                · exact hdisj (List.mem_cons_self _ _) hxol
                · exact hdisj
                    (List.mem_cons_of_mem _ (List.mem_cons_of_mem _ hxr)) hxol
              · rcases List.mem_cons.mp hx with rfl | hxr
                · exact hab
                · exact fun h => hbr2 (h ▸ hxr)
            · have e1 : ((a :: r2) ++ ol2).Perm ((a :: r2) ++ (b :: ol)) :=
                List.Perm.append_left _ hperm2
              have e2 : ((a :: r2) ++ (b :: ol)).Perm ((a :: b :: r2) ++ ol) := by
                simp only [List.cons_append]
                exact List.Perm.cons _ List.perm_middle
              exact e1.trans (e2.trans hp)
            · exact List.Sublist.cons₂ a (List.sublist_cons_self b r2)
            · rw [hsn]
              rfl

lemma fifo_handle_rings (S : SSystem) (va : Nat) (fl ol : List Nat)
    (hf : isRing S.frt S.listfree fl) (ho : isRing S.frt S.listoccupied ol)
    (hp : (fl ++ ol).Perm (List.range S.numframes)) (h1 : 1 ≤ S.numframes) :
    ∃ fl2 ol2,
      isRing (Fifo.handle_page_fault S va).frt
        (Fifo.handle_page_fault S va).listfree fl2 ∧
      isRing (Fifo.handle_page_fault S va).frt
        (Fifo.handle_page_fault S va).listoccupied ol2 ∧
      (fl2 ++ ol2).Perm (List.range S.numframes) ∧
      fl2.Sublist fl ∧
      (Fifo.handle_page_fault S va).numframes = S.numframes := by
  unfold Fifo.handle_page_fault
  refine handle_gen_rings _ _ ?_ ?_ ?_ S va fl ol hf ho hp h1
  · intro T tol hr hne
    obtain ⟨e1, e2, e3, _, _, ol', hperm, hring⟩ := fifo_choose_rings T tol hr hne
    exact ⟨e1, e2, e3, ol', hperm, hring⟩
  · intro T frame page tol hr hnd hnotin
    exact fifo_occupy_rings T frame page tol hr hnd hnotin
  · intro T frame page
    exact ⟨(fifo_occupy_scalars T frame page).1,
      (fifo_occupy_scalars T frame page).2.2.1⟩

lemma sc_handle_rings (S : SSystem) (va : Nat) (fl ol : List Nat)
    (hf : isRing S.frt S.listfree fl) (ho : isRing S.frt S.listoccupied ol)
    (hp : (fl ++ ol).Perm (List.range S.numframes)) (h1 : 1 ≤ S.numframes) :
    ∃ fl2 ol2,
      isRing (Sc.handle_page_fault S va).frt
        (Sc.handle_page_fault S va).listfree fl2 ∧
      isRing (Sc.handle_page_fault S va).frt
        (Sc.handle_page_fault S va).listoccupied ol2 ∧
      (fl2 ++ ol2).Perm (List.range S.numframes) ∧
      fl2.Sublist fl ∧
      (Sc.handle_page_fault S va).numframes = S.numframes := by
  unfold Sc.handle_page_fault
  refine handle_gen_rings _ _ ?_ ?_ ?_ S va fl ol hf ho hp h1
  · intro T tol hr hne
    unfold Sc.choose_page_to_be_replaced
    cases heq : Sc.choose_aux (T.numframes + 1) T with
    | none =>
        exact ⟨rfl, rfl, rfl, tol, List.Perm.refl _, hr⟩
    | some vs =>
        obtain ⟨v, S'⟩ := vs
        obtain ⟨e1, e2, e3, _, ol', hperm, hring⟩ :=
          sc_choose_aux_rings (T.numframes + 1) T tol hr hne v S' heq
        exact ⟨e1, e2, e3, ol', hperm, hring⟩
  · intro T frame page tol hr hnd hnotin
    exact sc_occupy_rings T frame page tol hr hnd hnotin
  · intro T frame page
    exact ⟨(sc_occupy_scalars T frame page).1,
      (sc_occupy_scalars T frame page).2.2.1⟩

/-! ## Case equations and ring preservation for `sim_mmu` -/

lemma sim_mmu_gen_present (handle : SSystem → Nat → SSystem)
    (ref : SSystem → Nat → Char → SSystem) (S : SSystem) (va : Nat) (op : Char)
    (hill : ¬ S.numpags ≤ va / S.pagsz)
    (hpres : (S.pgt (va / S.pagsz)).present = true) :
    (sim_mmu_gen handle ref S va op).1 = ref S (va / S.pagsz) op := by
  simp only [sim_mmu_gen]
  rw [if_neg hill, if_pos hpres]

lemma sim_mmu_gen_fault (handle : SSystem → Nat → SSystem)
    (ref : SSystem → Nat → Char → SSystem) (S : SSystem) (va : Nat) (op : Char)
    (hill : ¬ S.numpags ≤ va / S.pagsz)
    (hpres : ¬ (S.pgt (va / S.pagsz)).present = true) :
    (sim_mmu_gen handle ref S va op).1 = ref (handle S va) (va / S.pagsz) op := by
  simp only [sim_mmu_gen]
  rw [if_neg hill, if_neg hpres]

lemma mmu_gen_rings (handle : SSystem → Nat → SSystem)
    (ref : SSystem → Nat → Char → SSystem)
    (hhandle : ∀ (S : SSystem) (va : Nat) (fl ol : List Nat),
      isRing S.frt S.listfree fl → isRing S.frt S.listoccupied ol →
      (fl ++ ol).Perm (List.range S.numframes) → 1 ≤ S.numframes →
      ∃ fl2 ol2, isRing (handle S va).frt (handle S va).listfree fl2 ∧
        isRing (handle S va).frt (handle S va).listoccupied ol2 ∧
        (fl2 ++ ol2).Perm (List.range S.numframes) ∧ fl2.Sublist fl ∧
        (handle S va).numframes = S.numframes)
    (href : ∀ (S : SSystem) (p : Nat) (o : Char),
      (ref S p o).frt = S.frt ∧ (ref S p o).listfree = S.listfree ∧
      (ref S p o).listoccupied = S.listoccupied ∧
      (ref S p o).numframes = S.numframes)
    (S : SSystem) (va : Nat) (op : Char) (fl ol : List Nat)
    (hf : isRing S.frt S.listfree fl) (ho : isRing S.frt S.listoccupied ol)
    (hp : (fl ++ ol).Perm (List.range S.numframes)) (h1 : 1 ≤ S.numframes) :
    ∃ fl2 ol2,
      isRing (sim_mmu_gen handle ref S va op).1.frt
        (sim_mmu_gen handle ref S va op).1.listfree fl2 ∧
      isRing (sim_mmu_gen handle ref S va op).1.frt
        (sim_mmu_gen handle ref S va op).1.listoccupied ol2 ∧
      (fl2 ++ ol2).Perm (List.range S.numframes) ∧
      fl2.Sublist fl ∧
      (sim_mmu_gen handle ref S va op).1.numframes = S.numframes := by
  by_cases hill : S.numpags ≤ va / S.pagsz
  · have heq := sim_mmu_gen_illegal handle ref S va op hill
    rw [show (sim_mmu_gen handle ref S va op).1
        = ({ S with numillegalrefs := S.numillegalrefs + 1 } : SSystem) from by
      rw [heq]]
    exact ⟨fl, ol, hf, ho, hp, List.Sublist.refl _, rfl⟩
  · by_cases hpres : (S.pgt (va / S.pagsz)).present = true
    · rw [sim_mmu_gen_present handle ref S va op hill hpres]
      obtain ⟨e1, e2, e3, e4⟩ := href S (va / S.pagsz) op
      refine ⟨fl, ol, ?_, ?_, hp, List.Sublist.refl _, ?_⟩
      · rw [e1, e2]
        exact hf
      · rw [e1, e3]
        exact ho
      · rw [e4]
    · rw [sim_mmu_gen_fault handle ref S va op hill hpres]
      obtain ⟨fl2, ol2, h1', h2', h3', h4', h5'⟩ := hhandle S va fl ol hf ho hp h1
      obtain ⟨e1, e2, e3, e4⟩ := href (handle S va) (va / S.pagsz) op
      refine ⟨fl2, ol2, ?_, ?_, h3', h4', ?_⟩
      · rw [e1, e2]
        exact h1'
      · rw [e1, e3]
        exact h2'
      · rw [e4, h5']

lemma fifo_mmu_rings (S : SSystem) (va : Nat) (op : Char) (fl ol : List Nat)
    (hf : isRing S.frt S.listfree fl) (ho : isRing S.frt S.listoccupied ol)
    (hp : (fl ++ ol).Perm (List.range S.numframes)) (h1 : 1 ≤ S.numframes) :
    ∃ fl2 ol2,
      isRing (Fifo.sim_mmu S va op).1.frt (Fifo.sim_mmu S va op).1.listfree fl2 ∧
      isRing (Fifo.sim_mmu S va op).1.frt
        (Fifo.sim_mmu S va op).1.listoccupied ol2 ∧
      (fl2 ++ ol2).Perm (List.range S.numframes) ∧
      fl2.Sublist fl ∧
      (Fifo.sim_mmu S va op).1.numframes = S.numframes := by
  unfold Fifo.sim_mmu
  refine mmu_gen_rings _ _ ?_ ?_ S va op fl ol hf ho hp h1
  · exact fifo_handle_rings
  · intro T p o
    obtain ⟨e1, e2, e3, e4, _⟩ := reference_page_rw_fields T p o
    exact ⟨e1, e2, e3, e4⟩

lemma sc_mmu_rings (S : SSystem) (va : Nat) (op : Char) (fl ol : List Nat)
    (hf : isRing S.frt S.listfree fl) (ho : isRing S.frt S.listoccupied ol)
    (hp : (fl ++ ol).Perm (List.range S.numframes)) (h1 : 1 ≤ S.numframes) :
    ∃ fl2 ol2,
      isRing (Sc.sim_mmu S va op).1.frt (Sc.sim_mmu S va op).1.listfree fl2 ∧
      isRing (Sc.sim_mmu S va op).1.frt
        (Sc.sim_mmu S va op).1.listoccupied ol2 ∧
      (fl2 ++ ol2).Perm (List.range S.numframes) ∧
      fl2.Sublist fl ∧
      (Sc.sim_mmu S va op).1.numframes = S.numframes := by
  unfold Sc.sim_mmu
  refine mmu_gen_rings _ _ ?_ ?_ S va op fl ol hf ho hp h1
  · exact sc_handle_rings
  · intro T p o
    obtain ⟨e1, e2, e3, e4, _⟩ := sc_reference_page_fields T p o
    exact ⟨e1, e2, e3, e4⟩

/-! ## C1: the ring partition invariant -/

/-- C1 counterexample: in the random variant, `occupy_free_frame` never
links the detached frame into the occupied ring, so after one access from
the initialised one-frame system the free ring is empty (`listfree = -1`),
the occupied ring is still empty (`listoccupied = -1`), and no pair of
rings can cover the frame set: the partition invariant fails. -/
theorem ring_partition_counterexample : ¬ RingPartition cexRandom := by
  rintro ⟨fl, ol, hf, ho, hp⟩
  have h1 : cexRandom.listfree = -1 := by decide
  have h2 : cexRandom.listoccupied = -1 := by decide
  have h3 : cexRandom.numframes = 1 := by decide
  have hfl : fl = [] := (isRing_nil_iff hf).mpr h1
  have hol : ol = [] := (isRing_nil_iff ho).mpr h2
  rw [hfl, hol, h3] at hp
  have hlen := hp.length_eq
  simp at hlen

/-- C1 (amended): in the FIFO and second-chance variants, after
`init_tables` and after every `sim_mmu` call of any reference trace, the
free-ring and occupied-ring frame sets are disjoint and their union is
exactly the set of all frame indices `[0, numframes)` (each frame detached
from the free ring by `handle_page_fault` is linked into the occupied ring
by `occupy_free_frame`).  In the random and LRU variants the claim fails:
their `occupy_free_frame` leaves the occupied ring untouched, so detached
frames belong to no ring (see the counterexample). -/
theorem ring_partition_invariant (B : SSystem) (h1 : 1 ≤ B.numframes)
    (trace : List (Nat × Char)) :
    RingPartition (Fifo.run (init_tables B) trace) ∧
    RingPartition (Sc.run (Sc.init_tables B) trace) := by
  have hfifo : ∀ (tr : List (Nat × Char)) (S : SSystem),
      RingPartition S → 1 ≤ S.numframes →
      RingPartition (Fifo.run S tr) ∧ 1 ≤ (Fifo.run S tr).numframes := by
    intro tr
    induction tr with
    | nil =>
        intro S h hn
        exact ⟨h, hn⟩
    | cons hd tl ih =>
        intro S h hn
        obtain ⟨fl, ol, hf, ho, hp⟩ := h
        obtain ⟨fl2, ol2, hf2, ho2, hp2, _, hnum⟩ :=
          fifo_mmu_rings S hd.1 hd.2 fl ol hf ho hp hn
        have hP : RingPartition (Fifo.sim_mmu S hd.1 hd.2).1 :=
          ⟨fl2, ol2, hf2, ho2, by rw [hnum]; exact hp2⟩
        have hn' : 1 ≤ ((Fifo.sim_mmu S hd.1 hd.2).1).numframes := by
          rw [hnum]
          exact hn
        exact ih _ hP hn'
  have hsc : ∀ (tr : List (Nat × Char)) (S : SSystem),
      RingPartition S → 1 ≤ S.numframes →
      RingPartition (Sc.run S tr) ∧ 1 ≤ (Sc.run S tr).numframes := by
    intro tr
    induction tr with
    | nil =>
        intro S h hn
        exact ⟨h, hn⟩
    | cons hd tl ih =>
        intro S h hn
        obtain ⟨fl, ol, hf, ho, hp⟩ := h
        obtain ⟨fl2, ol2, hf2, ho2, hp2, _, hnum⟩ :=
          sc_mmu_rings S hd.1 hd.2 fl ol hf ho hp hn
        have hP : RingPartition (Sc.sim_mmu S hd.1 hd.2).1 :=
          ⟨fl2, ol2, hf2, ho2, by rw [hnum]; exact hp2⟩
        have hn' : 1 ≤ ((Sc.sim_mmu S hd.1 hd.2).1).numframes := by
          rw [hnum]
          exact hn
        exact ih _ hP hn'
  constructor
  · exact (hfifo trace (init_tables B)
      ⟨(B.numframes - 1) :: List.range (B.numframes - 1), [],
        initFrt_ring B h1, isRing_nil _, init_ring_perm B.numframes h1⟩ h1).1
  · exact (hsc trace (Sc.init_tables B)
      ⟨(B.numframes - 1) :: List.range (B.numframes - 1), [],
        initFrt_ring B h1, isRing_nil _, init_ring_perm B.numframes h1⟩ h1).1

/-- Witness for C1 on a concrete two-frame system and a one-access trace. -/
theorem ring_partition_invariant_witness :
    1 ≤ (baseSys 2 2 1).numframes ∧
    (RingPartition (Fifo.run (init_tables (baseSys 2 2 1)) [(0, 'R')]) ∧
      RingPartition (Sc.run (Sc.init_tables (baseSys 2 2 1)) [(0, 'R')])) :=
  ⟨by decide, ring_partition_invariant (baseSys 2 2 1) (by decide) [(0, 'R')]⟩

/-! ## C10: the free ring only shrinks -/

lemma fifo_handle_evict (S : SSystem) (va : Nat) (h : S.listfree = -1) :
    Fifo.handle_page_fault S va =
      replace_page
        (Fifo.choose_page_to_be_replaced
          { S with numpagefaults := S.numpagefaults + 1 }).2
        (Fifo.choose_page_to_be_replaced
          { S with numpagefaults := S.numpagefaults + 1 }).1
        (va / S.pagsz) := by
  unfold Fifo.handle_page_fault handle_page_fault_gen
  rw [if_neg (show ¬ ¬ (({ S with numpagefaults := S.numpagefaults + 1 } :
    SSystem).listfree = -1) from not_not_intro h)]

/-- C10: in the FIFO variant no operation returns a frame to the free ring:
(i) once `listfree = -1` it stays `-1` across every `sim_mmu` call; (ii)
when `listfree = -1`, `handle_page_fault` takes exactly the eviction path
(`choose_page_to_be_replaced` followed by `replace_page`); (iii) across any
`sim_mmu` call the free ring of a well-formed state can only lose frames:
the new free ring is a sublist of the old one. -/
theorem free_ring_only_shrinks :
    (∀ (S : SSystem) (va : Nat) (op : Char), S.listfree = -1 →
      ((Fifo.sim_mmu S va op).1).listfree = -1) ∧
    (∀ (S : SSystem) (va : Nat), S.listfree = -1 →
      Fifo.handle_page_fault S va =
        replace_page
          (Fifo.choose_page_to_be_replaced
            { S with numpagefaults := S.numpagefaults + 1 }).2
          (Fifo.choose_page_to_be_replaced
            { S with numpagefaults := S.numpagefaults + 1 }).1
          (va / S.pagsz)) ∧
    (∀ (S : SSystem) (va : Nat) (op : Char) (fl ol : List Nat),
      isRing S.frt S.listfree fl → isRing S.frt S.listoccupied ol →
      (fl ++ ol).Perm (List.range S.numframes) → 1 ≤ S.numframes →
      ∃ fl2 ol2,
        isRing (Fifo.sim_mmu S va op).1.frt
          (Fifo.sim_mmu S va op).1.listfree fl2 ∧
        isRing (Fifo.sim_mmu S va op).1.frt
          (Fifo.sim_mmu S va op).1.listoccupied ol2 ∧
        (fl2 ++ ol2).Perm (List.range S.numframes) ∧
        fl2.Sublist fl) := by
  refine ⟨?_, fifo_handle_evict, ?_⟩
  · intro S va op h
    unfold Fifo.sim_mmu
    by_cases hill : S.numpags ≤ va / S.pagsz
    · rw [sim_mmu_gen_illegal _ _ S va op hill]
      exact h
    · by_cases hpres : (S.pgt (va / S.pagsz)).present = true
      · rw [sim_mmu_gen_present _ _ S va op hill hpres]
        rw [(reference_page_rw_fields S (va / S.pagsz) op).2.1]
        exact h
      · rw [sim_mmu_gen_fault _ _ S va op hill hpres]
        rw [(reference_page_rw_fields (Fifo.handle_page_fault S va)
          (va / S.pagsz) op).2.1]
        rw [fifo_handle_evict S va h]
        rw [(replace_page_fields _ _ _).2.1]
        exact h
  · intro S va op fl ol hf ho hp h1
    obtain ⟨fl2, ol2, h1', h2', h3', h4', _⟩ :=
      fifo_mmu_rings S va op fl ol hf ho hp h1
    exact ⟨fl2, ol2, h1', h2', h3', h4'⟩

/-- Witness for C10 on the concrete one-frame FIFO state whose free ring is
already empty. -/
theorem free_ring_only_shrinks_witness :
    (fifoProbe.listfree = -1 ∧
      isRing fifoProbe.frt fifoProbe.listfree [] ∧
      isRing fifoProbe.frt fifoProbe.listoccupied [0] ∧
      (([] ++ [0] : List Nat)).Perm (List.range fifoProbe.numframes) ∧
      1 ≤ fifoProbe.numframes) ∧
    ((Fifo.sim_mmu fifoProbe 0 'R').1).listfree = -1 ∧
    (Fifo.handle_page_fault fifoProbe 1 =
      replace_page
        (Fifo.choose_page_to_be_replaced
          { fifoProbe with numpagefaults := fifoProbe.numpagefaults + 1 }).2
        (Fifo.choose_page_to_be_replaced
          { fifoProbe with numpagefaults := fifoProbe.numpagefaults + 1 }).1
        (1 / fifoProbe.pagsz)) ∧
    (∃ fl2 ol2,
      isRing (Fifo.sim_mmu fifoProbe 1 'R').1.frt
        (Fifo.sim_mmu fifoProbe 1 'R').1.listfree fl2 ∧
      isRing (Fifo.sim_mmu fifoProbe 1 'R').1.frt
        (Fifo.sim_mmu fifoProbe 1 'R').1.listoccupied ol2 ∧
      (fl2 ++ ol2).Perm (List.range fifoProbe.numframes) ∧
      fl2.Sublist []) :=
  ⟨⟨by decide, by decide, by decide, by decide, by decide⟩,
    free_ring_only_shrinks.1 fifoProbe 0 'R' (by decide),
    free_ring_only_shrinks.2.1 fifoProbe 1 (by decide),
    free_ring_only_shrinks.2.2 fifoProbe 1 'R' [] [0] (by decide) (by decide)
      (by decide) (by decide)⟩

/-! ## C9: the translation formula -/

lemma handle_gen_evict_eq (choose : SSystem → Int × SSystem)
    (occupy : SSystem → Nat → Nat → SSystem) (S : SSystem) (va : Nat)
    (h : S.listfree = -1) :
    handle_page_fault_gen choose occupy S va =
      replace_page (choose { S with numpagefaults := S.numpagefaults + 1 }).2
        (choose { S with numpagefaults := S.numpagefaults + 1 }).1
        (va / S.pagsz) := by
  unfold handle_page_fault_gen
  rw [if_neg (show ¬ ¬ (({ S with numpagefaults := S.numpagefaults + 1 } :
    SSystem).listfree = -1) from not_not_intro h)]

lemma handle_gen_free_eq (choose : SSystem → Int × SSystem)
    (occupy : SSystem → Nat → Nat → SSystem) (S : SSystem) (va : Nat)
    (h : ¬ S.listfree = -1) :
    handle_page_fault_gen choose occupy S va =
      occupy (if (S.frt S.listfree.toNat).next = S.listfree.toNat
          then { { S with numpagefaults := S.numpagefaults + 1 } with
            listfree := -1 }
          else updFr { S with numpagefaults := S.numpagefaults + 1 }
            S.listfree.toNat
            (fun fr =>
              { fr with next := (S.frt ((S.frt S.listfree.toNat).next)).next }))
        ((S.frt S.listfree.toNat).next) (va / S.pagsz) := by
  unfold handle_page_fault_gen
  rw [if_pos (show ¬ (({ S with numpagefaults := S.numpagefaults + 1 } :
    SSystem).listfree = -1) from h)]

lemma fifo_occupy_present (S : SSystem) (f p : Nat) :
    ((Fifo.occupy_free_frame S f p).pgt p).present = true := by
  unfold Fifo.occupy_free_frame
  by_cases h : S.listoccupied = -1 <;> simp [h]

lemma rnd_occupy_present (S : SSystem) (f p : Nat) :
    ((Rnd.occupy_free_frame S f p).pgt p).present = true := by
  unfold Rnd.occupy_free_frame
  simp

lemma sc_occupy_present (S : SSystem) (f p : Nat) :
    ((Sc.occupy_free_frame S f p).pgt p).present = true := by
  unfold Sc.occupy_free_frame
  by_cases h : S.listoccupied = -1 <;> simp [h]

lemma lru_occupy_present (S : SSystem) (f p : Nat) :
    ((Lru.occupy_free_frame S f p).pgt p).present = true := by
  unfold Lru.occupy_free_frame
  simp

lemma sc_choose_aux_pagsz : ∀ (fuel : Nat) (S : SSystem) (v : Int)
    (S' : SSystem), Sc.choose_aux fuel S = some (v, S') → S'.pagsz = S.pagsz := by
  intro fuel
  induction fuel with
  | zero =>
      intro S v S' heq
      simp [Sc.choose_aux] at heq
  | succ fuel ih =>
      intro S v S' heq
      rw [Sc.choose_aux] at heq
      by_cases href :
          (S.pgt ((S.frt ((S.frt S.listoccupied.toNat).next)).page.toNat)).referenced = true
      · rw [if_pos href] at heq
        have h3 := ih _ v S' heq
        exact h3
      · rw [if_neg href] at heq
        have h2 : S = S' := congrArg Prod.snd (Option.some.inj heq)
        rw [← h2]

lemma sc_choose_pagsz (S : SSystem) :
    (Sc.choose_page_to_be_replaced S).2.pagsz = S.pagsz := by
  unfold Sc.choose_page_to_be_replaced
  cases heq : Sc.choose_aux (S.numframes + 1) S with
  | none => rfl
  | some vs =>
      obtain ⟨v, S'⟩ := vs
      exact sc_choose_aux_pagsz _ S v S' heq

lemma handle_gen_present (choose : SSystem → Int × SSystem)
    (occupy : SSystem → Nat → Nat → SSystem)
    (hocc : ∀ T f p, ((occupy T f p).pgt p).present = true)
    (S : SSystem) (va : Nat) :
    ((handle_page_fault_gen choose occupy S va).pgt (va / S.pagsz)).present
      = true := by
  by_cases hfree : S.listfree = -1
  · rw [handle_gen_evict_eq choose occupy S va hfree]
    exact replace_page_present _ _ _
  · rw [handle_gen_free_eq choose occupy S va hfree]
    exact hocc _ _ _

lemma handle_gen_pagsz (choose : SSystem → Int × SSystem)
    (occupy : SSystem → Nat → Nat → SSystem)
    (hocc : ∀ T f p, (occupy T f p).pagsz = T.pagsz)
    (hch : ∀ T, (choose T).2.pagsz = T.pagsz)
    (S : SSystem) (va : Nat) :
    (handle_page_fault_gen choose occupy S va).pagsz = S.pagsz := by
  by_cases hfree : S.listfree = -1
  · rw [handle_gen_evict_eq choose occupy S va hfree,
      (replace_page_fields _ _ _).2.2.2.2, hch]
  · rw [handle_gen_free_eq choose occupy S va hfree, hocc]
    split <;> rfl

lemma reference_page_rw_pgt (S : SSystem) (p : Nat) (o : Char) :
    ((reference_page_rw S p o).pgt p).present = (S.pgt p).present ∧
    ((reference_page_rw S p o).pgt p).frame = (S.pgt p).frame := by
  unfold reference_page_rw
  split
  · exact ⟨rfl, rfl⟩
  · split
    · constructor <;> simp
    · exact ⟨rfl, rfl⟩

lemma sc_reference_page_pgt (S : SSystem) (p : Nat) (o : Char) :
    ((Sc.reference_page S p o).pgt p).present = (S.pgt p).present ∧
    ((Sc.reference_page S p o).pgt p).frame = (S.pgt p).frame := by
  unfold Sc.reference_page
  obtain ⟨e1, e2⟩ := reference_page_rw_pgt S p o
  constructor <;> simp [e1, e2]

lemma lru_reference_page_pgt (S : SSystem) (p : Nat) (o : Char) :
    ((Lru.reference_page S p o).pgt p).present = (S.pgt p).present ∧
    ((Lru.reference_page S p o).pgt p).frame = (S.pgt p).frame := by
  unfold Lru.reference_page
  obtain ⟨e1, e2⟩ := reference_page_rw_pgt S p o
  constructor <;> simp [e1, e2]

lemma sim_mmu_gen_present_pair (handle : SSystem → Nat → SSystem)
    (ref : SSystem → Nat → Char → SSystem) (S : SSystem) (va : Nat) (op : Char)
    (hill : ¬ S.numpags ≤ va / S.pagsz)
    (hpres : (S.pgt (va / S.pagsz)).present = true) :
    sim_mmu_gen handle ref S va op
      = (ref S (va / S.pagsz) op,
         ((S.pgt (va / S.pagsz)).frame * S.pagsz + va % S.pagsz) % 2 ^ 32) := by
  simp only [sim_mmu_gen]
  rw [if_neg hill, if_pos hpres]

lemma sim_mmu_gen_fault_pair (handle : SSystem → Nat → SSystem)
    (ref : SSystem → Nat → Char → SSystem) (S : SSystem) (va : Nat) (op : Char)
    (hill : ¬ S.numpags ≤ va / S.pagsz)
    (hpres : ¬ (S.pgt (va / S.pagsz)).present = true) :
    sim_mmu_gen handle ref S va op
      = (ref (handle S va) (va / S.pagsz) op,
         (((handle S va).pgt (va / S.pagsz)).frame * (handle S va).pagsz
           + va % S.pagsz) % 2 ^ 32) := by
  simp only [sim_mmu_gen]
  rw [if_neg hill, if_neg hpres]

lemma mmu_gen_translation (handle : SSystem → Nat → SSystem)
    (ref : SSystem → Nat → Char → SSystem)
    (hhp : ∀ S va, ((handle S va).pgt (va / S.pagsz)).present = true)
    (hhs : ∀ S va, (handle S va).pagsz = S.pagsz)
    (hrp : ∀ S p o, ((ref S p o).pgt p).present = (S.pgt p).present ∧
      ((ref S p o).pgt p).frame = (S.pgt p).frame)
    (S : SSystem) (va : Nat) (op : Char)
    (hpage : va / S.pagsz < S.numpags) :
    (sim_mmu_gen handle ref S va op).2 =
      (((sim_mmu_gen handle ref S va op).1.pgt (va / S.pagsz)).frame * S.pagsz
        + va % S.pagsz) % 2 ^ 32 ∧
    ((sim_mmu_gen handle ref S va op).1.pgt (va / S.pagsz)).present = true := by
  have hill : ¬ S.numpags ≤ va / S.pagsz := not_le.mpr hpage
  by_cases hpres : (S.pgt (va / S.pagsz)).present = true
  · rw [sim_mmu_gen_present_pair handle ref S va op hill hpres]
    obtain ⟨e1, e2⟩ := hrp S (va / S.pagsz) op
    constructor
    · show _ = (((ref S (va / S.pagsz) op).pgt (va / S.pagsz)).frame * S.pagsz
        + va % S.pagsz) % 2 ^ 32
      rw [e2]
    · show ((ref S (va / S.pagsz) op).pgt (va / S.pagsz)).present = true
      rw [e1, hpres]
  · rw [sim_mmu_gen_fault_pair handle ref S va op hill hpres]
    obtain ⟨e1, e2⟩ := hrp (handle S va) (va / S.pagsz) op
    constructor
    · show _ = (((ref (handle S va) (va / S.pagsz) op).pgt
        (va / S.pagsz)).frame * S.pagsz + va % S.pagsz) % 2 ^ 32
      rw [e2, hhs]
    · show ((ref (handle S va) (va / S.pagsz) op).pgt
        (va / S.pagsz)).present = true
      rw [e1, hhp]

/-- C9: for every in-range virtual address (page = virtual_addr / pagsz <
numpags), `sim_mmu` in each of the four variants returns `physical_addr =
frame * pagsz + (virtual_addr mod pagsz)` (as an unsigned value, i.e. mod
`2^32`), where `frame` is the accessed page's frame-table entry after any
fault handling has completed (the entry still held by the final state), and
the accessed page is present when `sim_mmu` returns. -/
theorem translation_formula (S : SSystem) (va : Nat) (op : Char) (r : Nat)
    (hpage : va / S.pagsz < S.numpags) :
    ((Fifo.sim_mmu S va op).2 =
        (((Fifo.sim_mmu S va op).1.pgt (va / S.pagsz)).frame * S.pagsz
          + va % S.pagsz) % 2 ^ 32 ∧
      ((Fifo.sim_mmu S va op).1.pgt (va / S.pagsz)).present = true) ∧
    ((Rnd.sim_mmu r S va op).2 =
        (((Rnd.sim_mmu r S va op).1.pgt (va / S.pagsz)).frame * S.pagsz
          + va % S.pagsz) % 2 ^ 32 ∧
      ((Rnd.sim_mmu r S va op).1.pgt (va / S.pagsz)).present = true) ∧
    ((Sc.sim_mmu S va op).2 =
        (((Sc.sim_mmu S va op).1.pgt (va / S.pagsz)).frame * S.pagsz
          + va % S.pagsz) % 2 ^ 32 ∧
      ((Sc.sim_mmu S va op).1.pgt (va / S.pagsz)).present = true) ∧
    ((Lru.sim_mmu S va op).2 =
        (((Lru.sim_mmu S va op).1.pgt (va / S.pagsz)).frame * S.pagsz
          + va % S.pagsz) % 2 ^ 32 ∧
      ((Lru.sim_mmu S va op).1.pgt (va / S.pagsz)).present = true) := by
  refine ⟨?_, ?_, ?_, ?_⟩
  · unfold Fifo.sim_mmu
    exact mmu_gen_translation _ _
      (handle_gen_present _ _ fifo_occupy_present)
      (handle_gen_pagsz _ _
        (fun T f p => (fifo_occupy_scalars T f p).2.2.2) (fun T => rfl))
      reference_page_rw_pgt S va op hpage
  · unfold Rnd.sim_mmu
    exact mmu_gen_translation _ _
      (handle_gen_present _ _ rnd_occupy_present)
      (handle_gen_pagsz _ _ (fun T f p => rfl) (fun T => rfl))
      reference_page_rw_pgt S va op hpage
  · unfold Sc.sim_mmu
    exact mmu_gen_translation _ _
      (handle_gen_present _ _ sc_occupy_present)
      (handle_gen_pagsz _ _
        (fun T f p => (sc_occupy_scalars T f p).2.2.2) sc_choose_pagsz)
      sc_reference_page_pgt S va op hpage
  · unfold Lru.sim_mmu
    exact mmu_gen_translation _ _
      (handle_gen_present _ _ lru_occupy_present)
      (handle_gen_pagsz _ _ (fun T f p => rfl) (fun T => rfl))
      lru_reference_page_pgt S va op hpage

/-- Witness for C9 at a concrete in-range address (page 1, offset 1 on a
one-frame system with page size 4). -/
theorem translation_formula_witness :
    (5 / (init_tables (baseSys 2 1 4)).pagsz
      < (init_tables (baseSys 2 1 4)).numpags) ∧
    ((Fifo.sim_mmu (init_tables (baseSys 2 1 4)) 5 'R').2 =
        (((Fifo.sim_mmu (init_tables (baseSys 2 1 4)) 5 'R').1.pgt
            (5 / (init_tables (baseSys 2 1 4)).pagsz)).frame
          * (init_tables (baseSys 2 1 4)).pagsz
          + 5 % (init_tables (baseSys 2 1 4)).pagsz) % 2 ^ 32 ∧
      ((Fifo.sim_mmu (init_tables (baseSys 2 1 4)) 5 'R').1.pgt
          (5 / (init_tables (baseSys 2 1 4)).pagsz)).present = true) :=
  ⟨by decide,
    (translation_formula (init_tables (baseSys 2 1 4)) 5 'R' 0 (by decide)).1⟩

/-! ## C3: the FIFO ordering law -/

/-- C3: in the FIFO variant with `numframes = 3` and `numpags ≥ 4`, starting
from the initialised state, the read trace touching pages 0, 1, 2, 3 (one
access each, at addresses `i * pagsz`) first fills the three free frames in
order (pages 0, 1, 2 resident in frames 0, 1, 2, the free ring exhausted),
and the fault for page 3 then evicts page 0 — the first-loaded page — never
page 1 or 2: afterwards pages 1, 2, 3 are resident and page 3 occupies
page 0's frame 0. -/
theorem fifo_ordering_law (B : SSystem) (hframes : B.numframes = 3)
    (hpags : 4 ≤ B.numpags) (hpz : 1 ≤ B.pagsz) :
    (((Fifo.run (init_tables B) [(0 * B.pagsz, 'R'), (1 * B.pagsz, 'R'),
        (2 * B.pagsz, 'R')]).pgt 0).present = true ∧
      ((Fifo.run (init_tables B) [(0 * B.pagsz, 'R'), (1 * B.pagsz, 'R'),
        (2 * B.pagsz, 'R')]).pgt 0).frame = 0 ∧
      ((Fifo.run (init_tables B) [(0 * B.pagsz, 'R'), (1 * B.pagsz, 'R'),
        (2 * B.pagsz, 'R')]).pgt 1).present = true ∧
      ((Fifo.run (init_tables B) [(0 * B.pagsz, 'R'), (1 * B.pagsz, 'R'),
        (2 * B.pagsz, 'R')]).pgt 1).frame = 1 ∧
      ((Fifo.run (init_tables B) [(0 * B.pagsz, 'R'), (1 * B.pagsz, 'R'),
        (2 * B.pagsz, 'R')]).pgt 2).present = true ∧
      ((Fifo.run (init_tables B) [(0 * B.pagsz, 'R'), (1 * B.pagsz, 'R'),
        (2 * B.pagsz, 'R')]).pgt 2).frame = 2 ∧
      (Fifo.run (init_tables B) [(0 * B.pagsz, 'R'), (1 * B.pagsz, 'R'),
        (2 * B.pagsz, 'R')]).listfree = -1) ∧
    (((Fifo.run (init_tables B) [(0 * B.pagsz, 'R'), (1 * B.pagsz, 'R'),
        (2 * B.pagsz, 'R'), (3 * B.pagsz, 'R')]).pgt 0).present = false ∧
      ((Fifo.run (init_tables B) [(0 * B.pagsz, 'R'), (1 * B.pagsz, 'R'),
        (2 * B.pagsz, 'R'), (3 * B.pagsz, 'R')]).pgt 1).present = true ∧
      ((Fifo.run (init_tables B) [(0 * B.pagsz, 'R'), (1 * B.pagsz, 'R'),
        (2 * B.pagsz, 'R'), (3 * B.pagsz, 'R')]).pgt 2).present = true ∧
      ((Fifo.run (init_tables B) [(0 * B.pagsz, 'R'), (1 * B.pagsz, 'R'),
        (2 * B.pagsz, 'R'), (3 * B.pagsz, 'R')]).pgt 3).present = true ∧
      ((Fifo.run (init_tables B) [(0 * B.pagsz, 'R'), (1 * B.pagsz, 'R'),
        (2 * B.pagsz, 'R'), (3 * B.pagsz, 'R')]).pgt 3).frame = 0) := by
  have h0 : 0 < B.pagsz := hpz
  have d1 : B.pagsz / B.pagsz = 1 := Nat.div_self h0
  have d2 : 2 * B.pagsz / B.pagsz = 2 := by exact Nat.mul_div_cancel _ h0
  have d3 : 3 * B.pagsz / B.pagsz = 3 := by exact Nat.mul_div_cancel _ h0
  have hz : (B.pagsz : Int) ≠ 0 := Int.natCast_ne_zero.mpr (by omega)
  have di1 : (B.pagsz : Int) / (B.pagsz : Int) = 1 := Int.ediv_self hz
  have di2 : ((2 : Int) * (B.pagsz : Int)) / (B.pagsz : Int) = 2 :=
    Int.mul_ediv_cancel 2 hz
  have di3 : ((3 : Int) * (B.pagsz : Int)) / (B.pagsz : Int) = 3 :=
    Int.mul_ediv_cancel 3 hz
  have n0 : ¬ (B.numpags ≤ 0) := by omega
  have n1 : ¬ (B.numpags ≤ 1) := by omega
  have n2 : ¬ (B.numpags ≤ 2) := by omega
  have n3 : ¬ (B.numpags ≤ 3) := by omega
  have p0 : (0 : Nat) < B.numpags := by omega
  have p1 : (1 : Nat) < B.numpags := by omega
  have p2 : (2 : Nat) < B.numpags := by omega
  have p3 : (3 : Nat) < B.numpags := by omega
  simp [Fifo.run, Fifo.sim_mmu, sim_mmu_gen, Fifo.handle_page_fault,
    handle_page_fault_gen, Fifo.choose_page_to_be_replaced,
    Fifo.occupy_free_frame, replace_page, reference_page_rw, updPg, updFr,
    init_tables, initFrt, zeroPage, hframes, d1, d2, d3, di1, di2, di3,
    n0, n1, n2, n3, p0, p1, p2, p3, -Int.natCast_div]

/-- Witness for C3 at the concrete sizes numpags = 4, numframes = 3,
pagsz = 1. -/
theorem fifo_ordering_law_witness :
    ((baseSys 4 3 1).numframes = 3 ∧ 4 ≤ (baseSys 4 3 1).numpags ∧
      1 ≤ (baseSys 4 3 1).pagsz) ∧
    ((Fifo.run (init_tables (baseSys 4 3 1))
      [(0 * (baseSys 4 3 1).pagsz, 'R'), (1 * (baseSys 4 3 1).pagsz, 'R'),
       (2 * (baseSys 4 3 1).pagsz, 'R'),
       (3 * (baseSys 4 3 1).pagsz, 'R')]).pgt 0).present = false :=
  ⟨⟨by decide, by decide, by decide⟩,
    (fifo_ordering_law (baseSys 4 3 1) (by decide) (by decide) (by decide)).2.1⟩

/-! ## C5: the second-chance pardon law -/

/-- C5 counterexample: on the initialised two-frame three-page
second-chance system with page size 1, the trace 0, 1, 0, 2 does not evict
page 1 at the fault for page 2 — page 1 is still present afterwards and
page 0 has been evicted instead, contradicting the claim's "evicts page 1,
not page 0". -/
theorem second_chance_pardon_counterexample :
    ((Sc.run (Sc.init_tables (baseSys 3 2 1))
        [(0, 'R'), (1, 'R'), (0, 'R'), (2, 'R')]).pgt 1).present = true ∧
    ((Sc.run (Sc.init_tables (baseSys 3 2 1))
        [(0, 'R'), (1, 'R'), (0, 'R'), (2, 'R')]).pgt 0).present = false := by
  constructor <;> decide

/-- C5 (amended): in the second-chance variant with `numframes = 2` and
`numpags ≥ 3`, the trace accessing page 0, page 1, page 0 again and then
page 2 leaves page 0's referenced bit set after the third access, but the
fault for page 2 evicts page 0, not page 1: page 1's referenced bit is also
set (pages are loaded and referenced with the bit set), so the walk pardons
page 0, pardons page 1, and returns to page 0 whose bit is now clear.
Afterwards pages 1 and 2 are resident and page 2 occupies page 0's
frame 0. -/
theorem second_chance_pardon_amended (B : SSystem) (hframes : B.numframes = 2)
    (hpags : 3 ≤ B.numpags) (hpz : 1 ≤ B.pagsz) :
    (((Sc.run (Sc.init_tables B) [(0 * B.pagsz, 'R'), (1 * B.pagsz, 'R'),
        (0 * B.pagsz, 'R')]).pgt 0).referenced = true) ∧
    (((Sc.run (Sc.init_tables B) [(0 * B.pagsz, 'R'), (1 * B.pagsz, 'R'),
        (0 * B.pagsz, 'R'), (2 * B.pagsz, 'R')]).pgt 0).present = false ∧
      ((Sc.run (Sc.init_tables B) [(0 * B.pagsz, 'R'), (1 * B.pagsz, 'R'),
        (0 * B.pagsz, 'R'), (2 * B.pagsz, 'R')]).pgt 1).present = true ∧
      ((Sc.run (Sc.init_tables B) [(0 * B.pagsz, 'R'), (1 * B.pagsz, 'R'),
        (0 * B.pagsz, 'R'), (2 * B.pagsz, 'R')]).pgt 2).present = true ∧
      ((Sc.run (Sc.init_tables B) [(0 * B.pagsz, 'R'), (1 * B.pagsz, 'R'),
        (0 * B.pagsz, 'R'), (2 * B.pagsz, 'R')]).pgt 2).frame = 0) := by
  have h0 : 0 < B.pagsz := hpz
  have d1 : B.pagsz / B.pagsz = 1 := Nat.div_self h0
  have d2 : 2 * B.pagsz / B.pagsz = 2 := by exact Nat.mul_div_cancel _ h0
  have hz : (B.pagsz : Int) ≠ 0 := Int.natCast_ne_zero.mpr (by omega)
  have di1 : (B.pagsz : Int) / (B.pagsz : Int) = 1 := Int.ediv_self hz
  have di2 : ((2 : Int) * (B.pagsz : Int)) / (B.pagsz : Int) = 2 :=
    Int.mul_ediv_cancel 2 hz
  have n0 : ¬ (B.numpags ≤ 0) := by omega
  have n1 : ¬ (B.numpags ≤ 1) := by omega
  have n2 : ¬ (B.numpags ≤ 2) := by omega
  have p0 : (0 : Nat) < B.numpags := by omega
  have p1 : (1 : Nat) < B.numpags := by omega
  have p2 : (2 : Nat) < B.numpags := by omega
  simp [Sc.run, Sc.sim_mmu, sim_mmu_gen, Sc.handle_page_fault,
    handle_page_fault_gen, Sc.choose_page_to_be_replaced, Sc.choose_aux,
    Sc.occupy_free_frame, Sc.reference_page, replace_page, reference_page_rw,
    updPg, updFr, Sc.init_tables, initFrt, zeroPage, hframes, d1, d2,
    di1, di2, n0, n1, n2, p0, p1, p2, -Int.natCast_div]

/-- Witness for C5 at the concrete sizes numpags = 3, numframes = 2,
pagsz = 1. -/
theorem second_chance_pardon_amended_witness :
    ((baseSys 3 2 1).numframes = 2 ∧ 3 ≤ (baseSys 3 2 1).numpags ∧
      1 ≤ (baseSys 3 2 1).pagsz) ∧
    ((Sc.run (Sc.init_tables (baseSys 3 2 1))
      [(0 * (baseSys 3 2 1).pagsz, 'R'), (1 * (baseSys 3 2 1).pagsz, 'R'),
       (0 * (baseSys 3 2 1).pagsz, 'R')]).pgt 0).referenced = true :=
  ⟨⟨by decide, by decide, by decide⟩,
    (second_chance_pardon_amended (baseSys 3 2 1) (by decide) (by decide)
      (by decide)).1⟩
